import Mathlib

/-!
Verification of the batch audio transcoder and cue-sheet splitter in
`audioconv-withhorizon.py`.

The embedding is shallow: Python strings are `List Char`, filesystem paths
are lists of components, the `pydub.AudioSegment` value is abstracted to the
metadata the program manipulates (frame rate, channels, sample width), and
the fallible external calls (`AudioSegment.from_file`, `export`) are
deterministic oracles supplied as parameters.  Machine arithmetic: Python
`int` is `Int` (arbitrary precision in Python as well), Python `//` is
`Int.fdiv` (floor division), and the float expression
`int((i + 1) / total * 100)` is embedded with IEEE binary64 semantics:
`roundDouble` below rounds an exact rational to a 53-bit significand,
nearest, ties to even, so the division and the multiplication each round
exactly as the program's doubles do (for normal-range values, which covers
every file count a Python list can hold).
-/

/-- Python strings are modelled as lists of characters. -/
abbrev PyStr := List Char

/-- Filesystem paths are lists of components (the parts separated by the
OS separator); `os.path.join` is append, `os.path.dirname` drops the last
component. -/
abbrev FPath := List PyStr

/-! ### Python string primitives used by the source -/

/-- Whitespace for `str.strip()` / `str.split()` (the ASCII whitespace
characters; Python also strips some unicode spaces, which never occur in
the inputs considered here). -/
def pyIsSpace (c : Char) : Bool :=
  c == ' ' || c == '\t' || c == '\n' || c == '\r' || c == '\x0b' || c == '\x0c'

/-- Strip characters satisfying `p` from both ends (`str.strip(chars)`). -/
def pyStripChars (p : Char → Bool) (s : PyStr) : PyStr :=
  ((s.dropWhile p).reverse.dropWhile p).reverse

/-- Python `str.strip()` with no argument: strip whitespace. -/
def pyStrip (s : PyStr) : PyStr := pyStripChars pyIsSpace s

/-- Python `str.strip(chr(34))`: strip double quotes (used on cue titles). -/
def pyStripQuotes (s : PyStr) : PyStr := pyStripChars (fun c => c == '"') s

/-- Python `str.startswith(pre)`. -/
def pyStartswith (pre s : PyStr) : Bool := List.isPrefixOf pre s

/-- Python `str.endswith(suf)`. -/
def pyEndswith (suf s : PyStr) : Bool := List.isSuffixOf suf s

/-- Helper for `str.split()` (no separator): accumulator holds the current
token reversed. -/
def pySplitWsAux : PyStr → PyStr → List PyStr
  | acc, [] => if acc.isEmpty then [] else [acc.reverse]
  | acc, c :: rest =>
    if pyIsSpace c then
      if acc.isEmpty then pySplitWsAux [] rest else acc.reverse :: pySplitWsAux [] rest
    else pySplitWsAux (c :: acc) rest

/-- Python `str.split()`: split on whitespace runs, no empty tokens. -/
def pySplitWs (s : PyStr) : List PyStr := pySplitWsAux [] s

/-- Helper for `str.split(sep)` with a single-character separator. -/
def pySplitCharAux (sep : Char) : PyStr → PyStr → List PyStr
  | acc, [] => [acc.reverse]
  | acc, c :: rest =>
    if c == sep then acc.reverse :: pySplitCharAux sep [] rest
    else pySplitCharAux sep (c :: acc) rest

/-- Python `str.split(sep)` for a one-character separator: keeps empty
pieces (used for the `MM:SS:FF` timestamp). -/
def pySplitChar (sep : Char) (s : PyStr) : List PyStr := pySplitCharAux sep [] s

/-- The part of `s` after the first occurrence of `sep`, i.e.
`s.split(sep, 1)[1]`.  Total function: returns `[]` when `sep` does not
occur; every use in the source is guarded by `startswith`, so the
occurrence is at position 0 and the fallback is never taken. -/
def pyAfterFirst (sep : PyStr) : PyStr → PyStr
  | [] => []
  | c :: rest =>
    if List.isPrefixOf sep (c :: rest) then (c :: rest).drop sep.length
    else pyAfterFirst sep rest

/-- Numeric value of a digit string (assumes all characters are digits). -/
def pyDigitsToNat (ds : PyStr) : ℕ :=
  ds.foldl (fun a c => a * 10 + (c.toNat - '0'.toNat)) 0

/-- Python `int(s)`: strips whitespace, accepts an optional sign followed
by at least one decimal digit, otherwise raises `ValueError` (`none`).
(Python additionally accepts underscores between digits and unicode
digits; neither occurs in the inputs considered here.) -/
def pyInt (s : PyStr) : Option Int :=
  let t := pyStrip s
  match t with
  | '+' :: ds =>
    if !ds.isEmpty && ds.all Char.isDigit then some (pyDigitsToNat ds) else none
  | '-' :: ds =>
    if !ds.isEmpty && ds.all Char.isDigit then some (-(pyDigitsToNat ds : Int)) else none
  | ds =>
    if !ds.isEmpty && ds.all Char.isDigit then some (pyDigitsToNat ds) else none

/-- Python `str(n)` for an `int`. -/
def pyIntRepr (n : Int) : PyStr := (toString n).data

/-- Python `str.zfill(w)`: left-pad with zeros to width `w`, keeping a
leading sign in front of the padding. -/
def pyZfill (w : ℕ) (s : PyStr) : PyStr :=
  if w ≤ s.length then s
  else
    match s with
    | '+' :: rest => '+' :: (List.replicate (w - s.length) '0' ++ rest)
    | '-' :: rest => '-' :: (List.replicate (w - s.length) '0' ++ rest)
    | _ => List.replicate (w - s.length) '0' ++ s

/-- Python `c.isalnum()` (restricted to ASCII alphanumerics; Python also
accepts other unicode letters/digits, which the sanitization claim treats
the same way). -/
def pyIsAlnum (c : Char) : Bool := c.isAlphanum

/-- Decidable equality for `Except`, so that concrete parses can be
checked by `decide`. -/
instance {ε α : Type} [DecidableEq ε] [DecidableEq α] : DecidableEq (Except ε α) := fun a b =>
  match a, b with
  | Except.error e1, Except.error e2 =>
    if h : e1 = e2 then isTrue (by rw [h]) else isFalse (by intro hh; cases hh; exact h rfl)
  | Except.error _, Except.ok _ => isFalse (by intro hh; cases hh)
  | Except.ok _, Except.error _ => isFalse (by intro hh; cases hh)
  | Except.ok v1, Except.ok v2 =>
    if h : v1 = v2 then isTrue (by rw [h]) else isFalse (by intro hh; cases hh; exact h rfl)

/-! ### Cue parser (`CueSplitterThread.parse_cue`, lines 100-138) -/

/-- One in-progress or finished track record: the Python dict with the
four optional keys the parser ever sets. -/
structure CueRec where
  number : Option Int
  title : Option PyStr
  performer : Option PyStr
  start : Option Int
deriving DecidableEq

/-- The empty dict `{}`. -/
def CueRec.mk0 : CueRec := ⟨none, none, none, none⟩

/-- Python dict truthiness: `{}` is falsy, any set key makes it truthy. -/
def CueRec.isEmpty (r : CueRec) : Bool :=
  r.number.isNone && r.title.isNone && r.performer.isNone && r.start.isNone

/-- The flush `if current_track: tracks.append(current_track)`. -/
def flushCur (tracks : List CueRec) (cur : CueRec) : List CueRec :=
  if cur.isEmpty then tracks else tracks ++ [cur]

/-- Error message for a Python `KeyError` on the given dict key (Python
renders the key quoted; the exact text is immaterial to the claims). -/
def keyErrMsg (f : String) : PyStr := ("KeyError: " ++ f).data

/-- Processing of one cue line (the body of the `for line in lines` loop,
lines 111-133).  State is `(tracks, current_track)`; an exception is an
`Except.error`.  Branches in the source order: `TRACK`, `TITLE`,
`PERFORMER`, `INDEX 01`, otherwise ignore. -/
def parseCueLine (st : List CueRec × CueRec) (raw : PyStr) :
    Except PyStr (List CueRec × CueRec) :=
  let line := pyStrip raw
  if pyStartswith "TRACK".data line then
    -- flush happens before reading parts[1]; on error the whole parse aborts
    let tracks2 := flushCur st.1 st.2
    let parts := pySplitWs line
    match parts.get? 1 with
    | none => Except.error "IndexError: list index out of range".data
    | some tok =>
      match pyInt tok with
      | none => Except.error ("ValueError: invalid literal for int: ".data ++ tok)
      | some n => Except.ok (tracks2, { CueRec.mk0 with number := some n })
  else if pyStartswith "TITLE".data line then
    let t := pyStripQuotes (pyStrip (pyAfterFirst "TITLE".data line))
    if st.2.number.isSome then Except.ok (st.1, { st.2 with title := some t })
    else Except.ok st
  else if pyStartswith "PERFORMER".data line then
    let t := pyStripQuotes (pyStrip (pyAfterFirst "PERFORMER".data line))
    if st.2.number.isSome then Except.ok (st.1, { st.2 with performer := some t })
    else Except.ok st
  else if pyStartswith "INDEX 01".data line then
    let timeStr := pyStrip (pyAfterFirst "INDEX 01".data line)
    let parts := pySplitChar ':' timeStr
    match parts.get? 0 with
    | none => Except.error "IndexError: list index out of range".data
    | some p0 =>
      match pyInt p0 with
      | none => Except.error ("ValueError: invalid literal for int: ".data ++ p0)
      | some m =>
        match parts.get? 1 with
        | none => Except.error "IndexError: list index out of range".data
        | some p1 =>
          match pyInt p1 with
          | none => Except.error ("ValueError: invalid literal for int: ".data ++ p1)
          | some s =>
            match parts.get? 2 with
            | none => Except.error "IndexError: list index out of range".data
            | some p2 =>
              match pyInt p2 with
              | none => Except.error ("ValueError: invalid literal for int: ".data ++ p2)
              | some f =>
                let totalMs := (m * 60 + s) * 1000 + Int.fdiv (f * 1000) 75
                Except.ok (st.1, { st.2 with start := some totalMs })
  else Except.ok st

/-- The line loop: fold `parseCueLine` over the lines, propagating the
first exception. -/
def parseCueLines (st : List CueRec × CueRec) :
    List PyStr → Except PyStr (List CueRec × CueRec)
  | [] => Except.ok st
  | l :: ls =>
    match parseCueLine st l with
    | Except.error e => Except.error e
    | Except.ok st2 => parseCueLines st2 ls

/-- `parse_cue` over the decoded lines of the cue file (the file read and
the encoding fallback are outside this model: the lines are the input).
Ends by flushing the last in-progress track (lines 135-136). -/
def parse_cue (lines : List PyStr) : Except PyStr (List CueRec) :=
  match parseCueLines ([], CueRec.mk0) lines with
  | Except.error e => Except.error e
  | Except.ok (tracks, cur) => Except.ok (flushCur tracks cur)

/-! ### Track splitter (`CueSplitterThread.run`, lines 140-189) -/

/-- One `track_audio.export(...)` call: the slice bounds in milliseconds
(`audio[start_time:end_time]`) and the target file name.  The container is
always FLAC (`format='flac'`), so it is not a field. -/
structure SplitCall where
  start : Int
  stop : Int
  filename : PyStr
deriving DecidableEq

/-- The identifier used in failure records:
`track.get('number', 'unknown')` rendered by the f-string. -/
def trackIdent (t : CueRec) : PyStr :=
  match t.number with
  | some n => pyIntRepr n
  | none => "unknown".data

/-- Environment of the splitter: the result of
`AudioSegment.from_file(self.audio_file)` abstracted to the duration
`len(audio)` in milliseconds (or an exception message), and a
deterministic oracle giving the exception raised by
`track_audio.export(...)`, if any. -/
structure CueEnv where
  audio : Except PyStr Int
  exportErr : SplitCall → Option PyStr

/-- The body of the per-track `try` block (lines 160-173): returns the
export call made (if control reached it) and the exception caught (if
any).  Exactly mirrors the statement order of the source: `track['start']`,
then `tracks[i + 1]['start']` (or `len(audio)`), then the slice, then
`track['number']`, then the file name, then the export. -/
def perTrack (exportErr : SplitCall → Option PyStr) (tracks : List CueRec)
    (audioLen : Int) (i : ℕ) (t : CueRec) : Option SplitCall × Option PyStr :=
  match t.start with
  | none => (none, some (keyErrMsg "start"))
  | some startTime =>
    let endRes : Except PyStr Int :=
      if i + 1 < tracks.length then
        match (tracks.getD (i + 1) CueRec.mk0).start with
        | none => Except.error (keyErrMsg "start")
        | some e2 => Except.ok e2
      else Except.ok audioLen
    match endRes with
    | Except.error e => (none, some e)
    | Except.ok endTime =>
      match t.number with
      | none => (none, some (keyErrMsg "number"))
      | some num =>
        let trackNum := pyZfill 2 (pyIntRepr num)
        let title0 := t.title.getD ("Track ".data ++ trackNum)
        let title1 := pyStrip (title0.filter (fun c =>
          pyIsAlnum c || c == ' ' || c == '-' || c == '_'))
        let filename := trackNum ++ " - ".data ++ title1 ++ ".flac".data
        let call : SplitCall := ⟨startTime, endTime, filename⟩
        match exportErr call with
        | some e => (some call, some e)
        | none => (some call, none)

/-- Accumulated observable behaviour of a split run: export calls made,
the `failed_files` list, and the emitted progress values, each in order. -/
structure SplitOut where
  calls : List SplitCall
  failed : List PyStr
  progress : List ℕ
deriving DecidableEq

/-! ### The progress expression: binary64 arithmetic -/

/-- Number of binary digits of `n` (0 for 0): fuel-based structural
recursion, the fuel starting at `n`, which bounds the recursion depth. -/
def natBitsAux : ℕ → ℕ → ℕ
  | 0, _ => 0
  | fuel + 1, n => if n = 0 then 0 else natBitsAux fuel (n / 2) + 1

/-- Number of binary digits of `n`. -/
def natBits (n : ℕ) : ℕ := natBitsAux n n

/-- Round a rational to the nearest integer, ties to even — the IEEE 754
default rounding direction. -/
def rheQ (x : ℚ) : ℤ :=
  if x - ⌊x⌋ < 1 / 2 then ⌊x⌋
  else if 1 / 2 < x - ⌊x⌋ then ⌊x⌋ + 1
  else if ⌊x⌋ % 2 = 0 then ⌊x⌋ else ⌊x⌋ + 1

/-- The binary exponent of a positive rational `q`: the unique `e` with
`2^e ≤ q < 2^(e+1)`, computed from the bit lengths of numerator and
denominator. -/
def ratExp (q : ℚ) : ℤ :=
  if (2 : ℚ) ^ ((natBits q.num.toNat : ℤ) - (natBits q.den : ℤ)) ≤ q
  then (natBits q.num.toNat : ℤ) - (natBits q.den : ℤ)
  else (natBits q.num.toNat : ℤ) - (natBits q.den : ℤ) - 1

/-- IEEE binary64 round-to-nearest-even of an exact rational value: the
significand is rounded to 53 bits at the value's own binary exponent.
The exponent is not clamped, so this equals the binary64 result whenever
that result is a normal number — no overflow (magnitudes up to about
2^1024) and no subnormals (magnitudes below 2^-1022); every value the
progress expression produces lies far inside that range for any file
count a Python list can hold. -/
def roundDouble (q : ℚ) : ℚ :=
  if q = 0 then 0
  else if 0 < q then (rheQ (q * 2 ^ (52 - ratExp q)) : ℚ) * 2 ^ (ratExp q - 52)
  else -((rheQ (-q * 2 ^ (52 - ratExp (-q))) : ℚ) * 2 ^ (ratExp (-q) - 52))

/-- Python `int((i + 1) / total_files * 100)` (line 85): `/` on two ints
is the correctly rounded binary64 quotient of their exact values, the
product with the exactly representable literal 100 is rounded again, and
`int` truncates toward zero — the floor, as the value is non-negative.
This is NOT always `floor(completed/total*100)` of the exact rationals:
the two roundings can land just below an integer — `completed = 29`,
`total = 100` yields 28 where the exact floor is 29. -/
def pyProgress (completed total : ℕ) : ℕ :=
  ⌊roundDouble (roundDouble ((completed : ℚ) / (total : ℚ)) * 100)⌋₊

/-- The `for i, track in enumerate(tracks)` loop (lines 159-181): `i` is
the current index, `ts` the remaining suffix of `tracks`. -/
def splitLoop (exportErr : SplitCall → Option PyStr) (tracks : List CueRec)
    (audioLen : Int) (total : ℕ) : ℕ → List CueRec → SplitOut
  | _, [] => ⟨[], [], []⟩
  | i, t :: ts =>
    let step := perTrack exportErr tracks audioLen i t
    let rest := splitLoop exportErr tracks audioLen total (i + 1) ts
    { calls := step.1.toList ++ rest.calls
      failed :=
        (match step.2 with
         | some e => ["Track ".data ++ trackIdent t ++ ": ".data ++ e]
         | none => []) ++ rest.failed
      progress := pyProgress (i + 1) total :: rest.progress }

/-- `CueSplitterThread.run` from the existence checks onwards.  File-system
effects that cannot fail in the model (path normalization, creating the
output folder) are elided; `cueExists`/`audioExists` are the two
`os.path.exists` checks, `cueLines` the decoded lines of the cue file.  A
top-level exception yields a single `General error` entry. -/
def cueRun (cueExists audioExists : Bool) (cueLines : List PyStr)
    (env : CueEnv) : SplitOut :=
  if !cueExists then
    ⟨[], ["General error: Cue file not found".data], []⟩
  else if !audioExists then
    ⟨[], ["General error: Audio file not found".data], []⟩
  else
    match parse_cue cueLines with
    | Except.error e => ⟨[], ["General error: ".data ++ e], []⟩
    | Except.ok tracks =>
      match env.audio with
      | Except.error e => ⟨[], ["General error: ".data ++ e], []⟩
      | Except.ok audioLen =>
        splitLoop env.exportErr tracks audioLen tracks.length 0 tracks

/-! ### Batch converter (`ConverterThread`, lines 38-87) -/

/-- The `pydub.AudioSegment` value abstracted to the metadata the program
sets; `set_frame_rate` / `set_channels` / `set_sample_width` are field
updates (the sample-data resampling they perform does not affect any
claim). -/
structure Audio where
  frameRate : ℕ
  channels : ℕ
  sampleWidth : ℕ
deriving DecidableEq

def Audio.setFrameRate (a : Audio) (r : ℕ) : Audio := { a with frameRate := r }

def Audio.setChannels (a : Audio) (c : ℕ) : Audio := { a with channels := c }

def Audio.setSampleWidth (a : Audio) (w : ℕ) : Audio := { a with sampleWidth := w }

/-- One `audio.export(...)` call of the converter: target path, container
format, optional codec and bitrate arguments, and the audio metadata at
the moment of the call. -/
structure ExportCall where
  path : FPath
  format : PyStr
  codec : Option PyStr
  bitrate : Option PyStr
  audio : Audio
deriving DecidableEq

/-- The constructor arguments of `ConverterThread`. -/
structure ConvConfig where
  folder : FPath
  overwrite : Bool
  fileTypes : List PyStr
  destination : FPath
  bitrate : PyStr
  sampleRate : ℕ
  gammaHorizon : Bool

/-- Deterministic oracles for the two fallible external calls:
`AudioSegment.from_file` (decode) and `audio.export` (`none` = success,
`some msg` = exception). -/
structure ConvEnv where
  decode : FPath → Except PyStr Audio
  exportErr : ExportCall → Option PyStr

/-- Filesystem state: the set (order-stable list) of existing files and of
existing directories. -/
structure FS where
  files : List FPath
  dirs : List FPath
deriving DecidableEq

/-- Insert a path if absent (append keeps the list set-like and stable). -/
def pathInsert (l : List FPath) (p : FPath) : List FPath :=
  if p ∈ l then l else l ++ [p]

/-- `os.path.dirname`: drop the final path component. -/
def dirname (p : FPath) : FPath := p.dropLast

/-- Final path component. -/
def lastName (p : FPath) : PyStr := p.getLastD []

/-- `os.path.relpath(p, base)` for `p` lying under `base`, the only case
arising here: every discovered path is `os.path.join(root, filename)` with
`root` under `self.folder`. -/
def relpath (p base : FPath) : FPath := p.drop base.length

/-- The root part of `os.path.splitext` restricted to one path component:
cut at the last dot, unless every character before that dot is itself a
dot (so that `.bashrc`-style names keep their dot), in which case the name
is returned whole. -/
def splitextStem (name : PyStr) : PyStr :=
  match (name.enum.filter (fun pr => pr.2 == '.')).getLast? with
  | none => name
  | some pr => if (name.take pr.1).any (fun c => c != '.') then name.take pr.1 else name

/-- Replace the extension of the last component of a path:
`os.path.splitext(p)[0] + ext`. -/
def replaceExtLast (p : FPath) (ext : PyStr) : FPath :=
  p.dropLast ++ [splitextStem (lastName p) ++ ext]

/-- The output extension chosen on line 70:
`'.wav' if self.gamma_horizon else '.mp3'`. -/
def outExt (cfg : ConvConfig) : PyStr :=
  if cfg.gammaHorizon then ".wav".data else ".mp3".data

/-- The output path the loop body computes (lines 64-70, without the
directory-creation side effect): the input path itself in overwrite mode,
else the destination joined with the relative path, extension replaced. -/
def resolveOutput (cfg : ConvConfig) (p : FPath) : FPath :=
  if cfg.overwrite then p
  else replaceExtLast (cfg.destination ++ relpath p cfg.folder) (outExt cfg)

/-- Outcome of one file, per the specification vocabulary: `succeeded`
(converted), `skipped` (output existed, nothing attempted), `failed`
(an exception was caught; carries its message). -/
inductive Outcome where
  | succeeded : Outcome
  | skipped : Outcome
  | failed : PyStr → Outcome
deriving DecidableEq

/-- The export call built on lines 74-79 for the decoded `audio`. -/
def buildCall (cfg : ConvConfig) (out : FPath) (audio : Audio) : ExportCall :=
  if cfg.gammaHorizon then
    { path := out, format := "wav".data, codec := some "pcm_ulaw".data,
      bitrate := none,
      audio := ((audio.setFrameRate 8000).setChannels 1).setSampleWidth 1 }
  else
    { path := out, format := "mp3".data, codec := none,
      bitrate := some cfg.bitrate,
      audio := ((audio.setFrameRate cfg.sampleRate).setChannels 2).setSampleWidth 2 }

/-- Lines 72-79: the body guarded by
`if self.overwrite or not os.path.exists(output_path)` once that guard
passed — decode, apply the profile, export.  Returns the new filesystem,
the outcome, and the export call if one was made. -/
def attemptConvert (cfg : ConvConfig) (env : ConvEnv) (fs : FS) (p out : FPath) :
    FS × Outcome × Option ExportCall :=
  match env.decode p with
  | Except.error e => (fs, Outcome.failed e, none)
  | Except.ok audio =>
    let call := buildCall cfg out audio
    match env.exportErr call with
    | some e => (fs, Outcome.failed e, some call)
    | none => ({ fs with files := pathInsert fs.files out }, Outcome.succeeded, some call)

/-- True when the decode-and-export of `p` to `out` raises, a property of
the oracles only (used to state idempotence of a second run). -/
def convertFails (cfg : ConvConfig) (env : ConvEnv) (p out : FPath) : Prop :=
  match env.decode p with
  | Except.error _ => True
  | Except.ok audio => env.exportErr (buildCall cfg out audio) ≠ none

/-- One iteration of the file loop (lines 62-84, without the trailing
progress emission): resolve the output (creating its directory in copy
mode, line 69), skip if it exists and overwrite is off, otherwise convert.
Every exception inside the `try` is reflected as `Outcome.failed`. -/
def processFile (cfg : ConvConfig) (env : ConvEnv) (fs : FS) (p : FPath) :
    FS × Outcome × Option ExportCall :=
  if cfg.overwrite then
    -- output_path = file_path; the guard `self.overwrite or ...` is true
    attemptConvert cfg env fs p p
  else
    let out0 := cfg.destination ++ relpath p cfg.folder
    -- os.makedirs(os.path.dirname(output_path), exist_ok=True)
    let fs1 := { fs with dirs := pathInsert fs.dirs (dirname out0) }
    let output := replaceExtLast out0 (outExt cfg)
    if output ∈ fs1.files then (fs1, Outcome.skipped, none)
    else attemptConvert cfg env fs1 p output

/-- Interleaved observable events of a batch run: completion of one file
with its outcome, and one emitted progress value. -/
inductive ConvEvent where
  | fileDone : FPath → Outcome → ConvEvent
  | prog : ℕ → ConvEvent
deriving DecidableEq

/-- Result of a batch run: final filesystem, per-file outcomes in
discovery order, the `failed_files` list, the `conversion_errors.log`
appends (path and message), the export calls made, and the event trace. -/
structure RunOut where
  fs : FS
  outcomes : List Outcome
  failed : List FPath
  log : List (FPath × PyStr)
  calls : List ExportCall
  events : List ConvEvent

/-- The `for i, file_path in enumerate(files)` loop (lines 62-85); `total`
is `total_files`, `i` the current index. -/
def runFiles (cfg : ConvConfig) (env : ConvEnv) (total : ℕ) :
    ℕ → FS → List FPath → RunOut
  | _, fs, [] => ⟨fs, [], [], [], [], []⟩
  | i, fs, p :: ps =>
    let step := processFile cfg env fs p
    let v := pyProgress (i + 1) total
    let rest := runFiles cfg env total (i + 1) step.1 ps
    { fs := rest.fs
      outcomes := step.2.1 :: rest.outcomes
      failed :=
        (match step.2.1 with
         | Outcome.failed _ => [p]
         | _ => []) ++ rest.failed
      log :=
        (match step.2.1 with
         | Outcome.failed m => [(p, m)]
         | _ => []) ++ rest.log
      calls := step.2.2.toList ++ rest.calls
      events := ConvEvent.fileDone p step.2.1 :: ConvEvent.prog v :: rest.events }

/-- File discovery (lines 54-58): walk order is the order of `allFiles`;
keep the paths whose final component ends with one of the selected
extensions. -/
def discover (allFiles : List FPath) (types : List PyStr) : List FPath :=
  allFiles.filter (fun p => types.any (fun ext => pyEndswith ext (lastName p)))

/-- `ConverterThread.run` (lines 53-87): discover, then loop.  The
`finished` signal carries the `failed` field of the result. -/
def runConv (cfg : ConvConfig) (env : ConvEnv) (fs : FS) : RunOut :=
  let files := discover fs.files cfg.fileTypes
  runFiles cfg env files.length 0 fs files

/-- The progress values of an event trace, in emission order. -/
def progressVals (evs : List ConvEvent) : List ℕ :=
  evs.filterMap (fun e =>
    match e with
    | ConvEvent.prog v => some v
    | _ => none)

/-- Pair each file-completion event with the progress value emitted right
after it (specification shape of the trace: used to state that exactly one
progress value is emitted per file, strictly after that file completes). -/
def interleaveEvents : List (FPath × Outcome) → List ℕ → List ConvEvent
  | [], _ => []
  | _ :: _, [] => []
  | (p, oc) :: rest, v :: vs =>
    ConvEvent.fileDone p oc :: ConvEvent.prog v :: interleaveEvents rest vs

/-! ### Lemmas about the batch run loop -/

theorem natBitsAux_zero (fuel : ℕ) : natBitsAux fuel 0 = 0 := by
  cases fuel <;> rfl

theorem natBitsAux_spec :
    ∀ fuel n : ℕ, n ≠ 0 → n ≤ fuel →
      1 ≤ natBitsAux fuel n ∧
        2 ^ (natBitsAux fuel n - 1) ≤ n ∧ n < 2 ^ natBitsAux fuel n := by
  intro fuel
  induction fuel with
  | zero => intro n h0 hle; omega
  | succ f ih =>
    intro n h0 hle
    simp only [natBitsAux, if_neg h0]
    by_cases h1 : n / 2 = 0
    · have hn1 : n = 1 := by omega
      subst hn1
      simp [show (1 : ℕ) / 2 = 0 from rfl, natBitsAux_zero]
    · have h2 : n / 2 ≤ f := by omega
      obtain ⟨hB, hlo, hhi⟩ := ih (n / 2) h1 h2
      have he1 : 2 ^ (natBitsAux f (n / 2) + 1 - 1)
          = 2 * 2 ^ (natBitsAux f (n / 2) - 1) := by
        rw [Nat.add_sub_cancel]
        conv_lhs => rw [show natBitsAux f (n / 2) = natBitsAux f (n / 2) - 1 + 1 by omega]
        rw [pow_succ, Nat.mul_comm]
      have he2 : 2 ^ (natBitsAux f (n / 2) + 1) = 2 * 2 ^ natBitsAux f (n / 2) := by
        rw [pow_succ, Nat.mul_comm]
      omega

theorem natBits_spec (n : ℕ) (h : n ≠ 0) :
    1 ≤ natBits n ∧ 2 ^ (natBits n - 1) ≤ n ∧ n < 2 ^ natBits n :=
  natBitsAux_spec n n h le_rfl

theorem rheQ_ge_floor (x : ℚ) : ⌊x⌋ ≤ rheQ x := by
  unfold rheQ
  split
  · exact le_refl _
  · split
    · omega
    · split <;> omega

theorem rheQ_le_floor_add_one (x : ℚ) : rheQ x ≤ ⌊x⌋ + 1 := by
  unfold rheQ
  split
  · omega
  · split
    · omega
    · split <;> omega

theorem rheQ_mono {x y : ℚ} (h : x ≤ y) : rheQ x ≤ rheQ y := by
  rcases eq_or_lt_of_le (Int.floor_le_floor h) with hf | hf
  · have hfr : x - (⌊y⌋ : ℚ) ≤ y - (⌊y⌋ : ℚ) := by
      exact sub_le_sub_right h _
    unfold rheQ
    rw [hf]
    split_ifs <;> first | omega | linarith
  · calc rheQ x ≤ ⌊x⌋ + 1 := rheQ_le_floor_add_one x
      _ ≤ ⌊y⌋ := by omega
      _ ≤ rheQ y := rheQ_ge_floor y

theorem rheQ_eq_lo (x : ℚ) (f : ℤ) (h1 : ⌊x⌋ = f) (h2 : x - (f : ℚ) < 1 / 2) :
    rheQ x = f := by
  unfold rheQ
  rw [h1, if_pos h2]

theorem ratExp_bounds (a b A B : ℕ) (ha0 : a ≠ 0) (hb0 : b ≠ 0)
    (hA1 : 2 ^ (A - 1) ≤ a) (hA2 : a < 2 ^ A)
    (hB1 : 2 ^ (B - 1) ≤ b) (hB2 : b < 2 ^ B) :
    (2 : ℚ) ^ ((A : ℤ) - (B : ℤ) - 1) < (a : ℚ) / (b : ℚ) ∧
      (a : ℚ) / (b : ℚ) < 2 ^ ((A : ℤ) - (B : ℤ) + 1) := by
  have hA3 : 1 ≤ A := by
    rcases Nat.eq_zero_or_pos A with rfl | h
    · rw [pow_zero] at hA2
      omega
    · exact h
  have hB3 : 1 ≤ B := by
    rcases Nat.eq_zero_or_pos B with rfl | h
    · rw [pow_zero] at hB2
      omega
    · exact h
  have hbq : (0 : ℚ) < (b : ℚ) := by exact_mod_cast Nat.pos_of_ne_zero hb0
  constructor
  · have hz : (A : ℤ) - (B : ℤ) - 1 = ((A - 1 : ℕ) : ℤ) - ((B : ℕ) : ℤ) := by omega
    rw [hz, zpow_sub₀ two_ne_zero, zpow_natCast, zpow_natCast,
      div_lt_div_iff₀ (by positivity) hbq]
    have hineq : 2 ^ (A - 1) * b < a * 2 ^ B := by
      calc 2 ^ (A - 1) * b ≤ a * b := Nat.mul_le_mul_right _ hA1
        _ < a * 2 ^ B := Nat.mul_lt_mul_of_le_of_lt (le_refl _) hB2 (by omega)
    exact_mod_cast hineq
  · have hz : (A : ℤ) - (B : ℤ) + 1 = ((A : ℕ) : ℤ) - ((B - 1 : ℕ) : ℤ) := by omega
    rw [hz, zpow_sub₀ two_ne_zero, zpow_natCast, zpow_natCast,
      div_lt_div_iff₀ hbq (by positivity)]
    have hineq : a * 2 ^ (B - 1) < 2 ^ A * b := by
      calc a * 2 ^ (B - 1) < 2 ^ A * 2 ^ (B - 1) :=
            Nat.mul_lt_mul_of_lt_of_le hA2 (le_refl _) (by positivity)
        _ ≤ 2 ^ A * b := Nat.mul_le_mul_left _ hB1
    exact_mod_cast hineq

theorem ratExp_spec (q : ℚ) (hq : 0 < q) :
    (2 : ℚ) ^ ratExp q ≤ q ∧ q < 2 ^ (ratExp q + 1) := by
  have hnum : 0 < q.num := Rat.num_pos.mpr hq
  have ha0 : q.num.toNat ≠ 0 := by omega
  have hb0 : q.den ≠ 0 := q.den_nz
  obtain ⟨-, hA1, hA2⟩ := natBits_spec _ ha0
  obtain ⟨-, hB1, hB2⟩ := natBits_spec _ hb0
  have hq_eq : q = (q.num.toNat : ℚ) / (q.den : ℚ) := by
    rw [show ((q.num.toNat : ℕ) : ℚ) = ((q.num : ℤ) : ℚ) by
      exact_mod_cast congrArg (fun z : ℤ => (z : ℚ)) (Int.toNat_of_nonneg hnum.le)]
    exact (Rat.num_div_den q).symm
  obtain ⟨hlow, hhigh⟩ := ratExp_bounds q.num.toNat q.den
    (natBits q.num.toNat) (natBits q.den) ha0 hb0 hA1 hA2 hB1 hB2
  rw [← hq_eq] at hlow hhigh
  unfold ratExp
  split
  · rename_i hc
    exact ⟨hc, hhigh⟩
  · rename_i hc
    refine ⟨hlow.le, ?_⟩
    rw [show (natBits q.num.toNat : ℤ) - (natBits q.den : ℤ) - 1 + 1
        = (natBits q.num.toNat : ℤ) - (natBits q.den : ℤ) by ring]
    exact lt_of_not_le hc

theorem ratExp_uniq (q : ℚ) (e : ℤ) (hq : 0 < q)
    (hlo : (2 : ℚ) ^ e ≤ q) (hhi : q < 2 ^ (e + 1)) : ratExp q = e := by
  obtain ⟨h1, h2⟩ := ratExp_spec q hq
  by_contra hne
  rcases lt_or_gt_of_ne hne with hlt | hgt
  · have h3 : (2 : ℚ) ^ (ratExp q + 1) ≤ 2 ^ e :=
      (zpow_le_zpow_iff_right₀ (by norm_num : (1 : ℚ) < 2)).mpr (by omega)
    linarith
  · have h3 : (2 : ℚ) ^ (e + 1) ≤ 2 ^ ratExp q :=
      (zpow_le_zpow_iff_right₀ (by norm_num : (1 : ℚ) < 2)).mpr (by omega)
    linarith

theorem ratExp_mono {x y : ℚ} (hx : 0 < x) (hxy : x ≤ y) : ratExp x ≤ ratExp y := by
  obtain ⟨h1, _⟩ := ratExp_spec x hx
  obtain ⟨_, h4⟩ := ratExp_spec y (lt_of_lt_of_le hx hxy)
  by_contra hc
  push_neg at hc
  have h3 : (2 : ℚ) ^ (ratExp y + 1) ≤ 2 ^ ratExp x :=
    (zpow_le_zpow_iff_right₀ (by norm_num : (1 : ℚ) < 2)).mpr (by omega)
  linarith

theorem roundDouble_pos_eq (q : ℚ) (hq : 0 < q) :
    roundDouble q = (rheQ (q * 2 ^ (52 - ratExp q)) : ℚ) * 2 ^ (ratExp q - 52) := by
  unfold roundDouble
  rw [if_neg (ne_of_gt hq), if_pos hq]

theorem scaled_lb (q : ℚ) (hq : 0 < q) :
    (2 : ℚ) ^ (52 : ℤ) ≤ q * 2 ^ ((52 : ℤ) - ratExp q) := by
  have h1 := (ratExp_spec q hq).1
  have hs : (0 : ℚ) < 2 ^ ((52 : ℤ) - ratExp q) := zpow_pos two_pos _
  calc (2 : ℚ) ^ (52 : ℤ) = 2 ^ ratExp q * 2 ^ ((52 : ℤ) - ratExp q) := by
        rw [← zpow_add₀ two_ne_zero]
        congr 1
        ring
    _ ≤ q * 2 ^ ((52 : ℤ) - ratExp q) := mul_le_mul_of_nonneg_right h1 hs.le

theorem scaled_ub (q : ℚ) (hq : 0 < q) :
    q * 2 ^ ((52 : ℤ) - ratExp q) < 2 ^ (53 : ℤ) := by
  have h2 := (ratExp_spec q hq).2
  have hs : (0 : ℚ) < 2 ^ ((52 : ℤ) - ratExp q) := zpow_pos two_pos _
  calc q * 2 ^ ((52 : ℤ) - ratExp q)
      < 2 ^ (ratExp q + 1) * 2 ^ ((52 : ℤ) - ratExp q) := mul_lt_mul_of_pos_right h2 hs
    _ = 2 ^ (53 : ℤ) := by
        rw [← zpow_add₀ two_ne_zero]
        congr 1
        ring

theorem roundDouble_lb (q : ℚ) (hq : 0 < q) : (2 : ℚ) ^ ratExp q ≤ roundDouble q := by
  rw [roundDouble_pos_eq q hq]
  have hfl : (4503599627370496 : ℤ) ≤ rheQ (q * 2 ^ ((52 : ℤ) - ratExp q)) := by
    refine le_trans ?_ (rheQ_ge_floor _)
    rw [Int.le_floor]
    refine le_trans (le_of_eq ?_) (scaled_lb q hq)
    push_cast
    norm_num
  calc (2 : ℚ) ^ ratExp q = (4503599627370496 : ℚ) * 2 ^ (ratExp q - 52) := by
        rw [show (4503599627370496 : ℚ) = 2 ^ (52 : ℤ) from by norm_num,
          ← zpow_add₀ two_ne_zero]
        congr 1
        ring
    _ ≤ _ := mul_le_mul_of_nonneg_right (by exact_mod_cast hfl) (zpow_pos two_pos _).le

theorem roundDouble_ub (q : ℚ) (hq : 0 < q) : roundDouble q ≤ 2 ^ (ratExp q + 1) := by
  rw [roundDouble_pos_eq q hq]
  have hfl : rheQ (q * 2 ^ ((52 : ℤ) - ratExp q)) ≤ (9007199254740992 : ℤ) := by
    refine le_trans (rheQ_le_floor_add_one _) ?_
    have hlt : ⌊q * 2 ^ ((52 : ℤ) - ratExp q)⌋ < (9007199254740992 : ℤ) := by
      rw [Int.floor_lt]
      refine lt_of_lt_of_le (scaled_ub q hq) (le_of_eq ?_)
      push_cast
      norm_num
    omega
  calc (rheQ (q * 2 ^ ((52 : ℤ) - ratExp q)) : ℚ) * 2 ^ (ratExp q - 52)
      ≤ (9007199254740992 : ℚ) * 2 ^ (ratExp q - 52) :=
        mul_le_mul_of_nonneg_right (by exact_mod_cast hfl) (zpow_pos two_pos _).le
    _ = 2 ^ (ratExp q + 1) := by
        rw [show (9007199254740992 : ℚ) = 2 ^ (53 : ℤ) from by norm_num,
          ← zpow_add₀ two_ne_zero]
        congr 1
        ring

theorem roundDouble_pos_of_pos (q : ℚ) (hq : 0 < q) : 0 < roundDouble q :=
  lt_of_lt_of_le (zpow_pos two_pos _) (roundDouble_lb q hq)

theorem roundDouble_mono {x y : ℚ} (hx : 0 < x) (h : x ≤ y) :
    roundDouble x ≤ roundDouble y := by
  have hy : 0 < y := lt_of_lt_of_le hx h
  rcases eq_or_lt_of_le (ratExp_mono hx h) with heq | hlt
  · rw [roundDouble_pos_eq x hx, roundDouble_pos_eq y hy, ← heq]
    have hs : (0 : ℚ) < 2 ^ ((52 : ℤ) - ratExp x) := zpow_pos two_pos _
    refine mul_le_mul_of_nonneg_right ?_ (zpow_pos two_pos _).le
    exact_mod_cast rheQ_mono (mul_le_mul_of_nonneg_right h hs.le)
  · calc roundDouble x ≤ 2 ^ (ratExp x + 1) := roundDouble_ub x hx
      _ ≤ 2 ^ ratExp y :=
          (zpow_le_zpow_iff_right₀ (by norm_num : (1 : ℚ) < 2)).mpr (by omega)
      _ ≤ roundDouble y := roundDouble_lb y hy

theorem roundDouble_eval (q : ℚ) (e m : ℤ) (hq : 0 < q)
    (hlo : (2 : ℚ) ^ e ≤ q) (hhi : q < 2 ^ (e + 1))
    (hm : rheQ (q * 2 ^ ((52 : ℤ) - e)) = m) :
    roundDouble q = (m : ℚ) * 2 ^ (e - 52) := by
  rw [roundDouble_pos_eq q hq, ratExp_uniq q e hq hlo hhi, hm]

theorem roundDouble_one : roundDouble 1 = 1 := by
  have hm : rheQ ((1 : ℚ) * 2 ^ ((52 : ℤ) - 0)) = 4503599627370496 := by
    apply rheQ_eq_lo
    · rw [Int.floor_eq_iff] <;> norm_num
    · norm_num
  rw [roundDouble_eval 1 0 4503599627370496 one_pos (by norm_num) (by norm_num) hm]
  norm_num

theorem roundDouble_hundred : roundDouble 100 = 100 := by
  have hm : rheQ ((100 : ℚ) * 2 ^ ((52 : ℤ) - 6)) = 7036874417766400 := by
    apply rheQ_eq_lo
    · rw [Int.floor_eq_iff] <;> norm_num
    · norm_num
  rw [roundDouble_eval 100 6 7036874417766400 (by norm_num) (by norm_num) (by norm_num) hm]
  norm_num

theorem pyProgress_mono (n : ℕ) {k1 k2 : ℕ} (hk : 0 < k1) (hkk : k1 ≤ k2) :
    pyProgress k1 n ≤ pyProgress k2 n := by
  rcases Nat.eq_zero_or_pos n with rfl | hn
  · simp [pyProgress, roundDouble]
  · have hnq : (0 : ℚ) < (n : ℚ) := by exact_mod_cast hn
    have hd1 : (0 : ℚ) < (k1 : ℚ) / (n : ℚ) := div_pos (by exact_mod_cast hk) hnq
    have hdle : (k1 : ℚ) / (n : ℚ) ≤ (k2 : ℚ) / (n : ℚ) := by
      have hkq : (k1 : ℚ) ≤ (k2 : ℚ) := by exact_mod_cast hkk
      gcongr
    have h1 := roundDouble_mono hd1 hdle
    have hp1 : (0 : ℚ) < roundDouble ((k1 : ℚ) / (n : ℚ)) := roundDouble_pos_of_pos _ hd1
    have hm100 : roundDouble ((k1 : ℚ) / (n : ℚ)) * 100
        ≤ roundDouble ((k2 : ℚ) / (n : ℚ)) * 100 :=
      mul_le_mul_of_nonneg_right h1 (by norm_num)
    exact Nat.floor_le_floor (roundDouble_mono (mul_pos hp1 (by norm_num)) hm100)

theorem pyProgress_total (n : ℕ) (hn : 0 < n) : pyProgress n n = 100 := by
  unfold pyProgress
  rw [div_self (by exact_mod_cast hn.ne' : (n : ℚ) ≠ 0)]
  rw [roundDouble_one, one_mul, roundDouble_hundred]
  norm_num

/-- Specification-side description of the failure list: the files whose
outcome is `failed`, in processing order. -/
def failedOf (pairs : List (FPath × Outcome)) : List FPath :=
  pairs.filterMap (fun pr =>
    match pr.2 with
    | Outcome.failed _ => some pr.1
    | _ => none)

/-- Specification-side description of the diagnostic-log appends: one
entry (path, message) per failed file, in processing order. -/
def logOf (pairs : List (FPath × Outcome)) : List (FPath × PyStr) :=
  pairs.filterMap (fun pr =>
    match pr.2 with
    | Outcome.failed m => some (pr.1, m)
    | _ => none)

theorem runFiles_outcomes_length (cfg : ConvConfig) (env : ConvEnv) (total : ℕ) :
    ∀ (l : List FPath) (i : ℕ) (fs : FS),
      ((runFiles cfg env total i fs l).outcomes).length = l.length := by
  intro l
  induction l with
  | nil => intro i fs; rfl
  | cons p ps ih => intro i fs; simp [runFiles, ih]

theorem runFiles_failed_eq (cfg : ConvConfig) (env : ConvEnv) (total : ℕ) :
    ∀ (l : List FPath) (i : ℕ) (fs : FS),
      (runFiles cfg env total i fs l).failed
        = failedOf (l.zip (runFiles cfg env total i fs l).outcomes) := by
  intro l
  induction l with
  | nil => intro i fs; rfl
  | cons p ps ih =>
    intro i fs
    cases hoc : (processFile cfg env fs p).2.1 <;>
      simp [runFiles, hoc, failedOf, List.filterMap_cons, ih i.succ]

theorem runFiles_log_eq (cfg : ConvConfig) (env : ConvEnv) (total : ℕ) :
    ∀ (l : List FPath) (i : ℕ) (fs : FS),
      (runFiles cfg env total i fs l).log
        = logOf (l.zip (runFiles cfg env total i fs l).outcomes) := by
  intro l
  induction l with
  | nil => intro i fs; rfl
  | cons p ps ih =>
    intro i fs
    cases hoc : (processFile cfg env fs p).2.1 <;>
      simp [runFiles, hoc, logOf, List.filterMap_cons, ih i.succ]

theorem runFiles_events_length (cfg : ConvConfig) (env : ConvEnv) (total : ℕ) :
    ∀ (l : List FPath) (i : ℕ) (fs : FS),
      ((runFiles cfg env total i fs l).events).length = 2 * l.length := by
  intro l
  induction l with
  | nil => intro i fs; rfl
  | cons p ps ih =>
    intro i fs
    simp [runFiles, ih i.succ]
    omega

theorem runFiles_events_eq (cfg : ConvConfig) (env : ConvEnv) (total : ℕ) :
    ∀ (l : List FPath) (i : ℕ) (fs : FS),
      (runFiles cfg env total i fs l).events
        = interleaveEvents (l.zip (runFiles cfg env total i fs l).outcomes)
            (progressVals (runFiles cfg env total i fs l).events) := by
  intro l
  induction l with
  | nil => intro i fs; rfl
  | cons p ps ih =>
    intro i fs
    simp [runFiles, progressVals, List.filterMap_cons, interleaveEvents]
    exact ih i.succ _

theorem progressVals_cons_done (p : FPath) (oc : Outcome) (evs : List ConvEvent) :
    progressVals (ConvEvent.fileDone p oc :: evs) = progressVals evs := by
  simp [progressVals]

theorem progressVals_cons_prog (v : ℕ) (evs : List ConvEvent) :
    progressVals (ConvEvent.prog v :: evs) = v :: progressVals evs := by
  simp [progressVals]

theorem runFiles_progressVals (cfg : ConvConfig) (env : ConvEnv) (total : ℕ) :
    ∀ (l : List FPath) (i : ℕ) (fs : FS),
      progressVals (runFiles cfg env total i fs l).events
        = (List.range l.length).map (fun k => pyProgress (i + k + 1) total) := by
  intro l
  induction l with
  | nil => intro i fs; rfl
  | cons p ps ih =>
    intro i fs
    simp only [runFiles, progressVals_cons_done, progressVals_cons_prog,
      List.length_cons, List.range_succ_eq_map, List.map_cons, List.map_map]
    refine congrArg₂ _ (by simp) ?_
    rw [ih i.succ]
    refine List.map_congr_left ?_
    intro k _
    simp only [Function.comp]
    congr 1
    omega

/-- The progress sequence of a run over `n` files is non-decreasing (the
binary64 roundings are monotone). -/
theorem progressSeq_mono (n : ℕ) :
    List.Pairwise (· ≤ ·) ((List.range n).map (fun k => pyProgress (k + 1) n)) := by
  rw [List.pairwise_map]
  refine (List.pairwise_lt_range n).imp ?_
  intro a b h
  exact pyProgress_mono n (Nat.succ_pos a) (by omega)

/-- The final progress value of a run over `n > 0` files is 100. -/
theorem progressSeq_last (n : ℕ) (hn : 0 < n) :
    ((List.range n).map (fun k => pyProgress (k + 1) n)).getLast? = some 100 := by
  cases n with
  | zero => exact absurd hn (lt_irrefl 0)
  | succ m =>
    rw [List.range_succ, List.map_append, List.map_cons]
    simp only [List.map_nil, List.getLast?_concat]
    exact congrArg some (pyProgress_total (m + 1) m.succ_pos)

/-- Certified binary64 evaluation: after file 29 of 100 the program emits
`int(29/100*100) = 28`, one below the exact rational floor 29.  The first
rounding gives `5224175567749775 / 2^54` (the scaled value has fractional
part 9/25, rounded down); multiplying by 100 and rounding again gives
`8162774324609023 / 2^48 < 29`, whose integer truncation is 28. -/
theorem pyProgress_29_100 : pyProgress 29 100 = 28 := by
  have h1 : roundDouble (((29 : ℕ) : ℚ) / ((100 : ℕ) : ℚ))
      = (5224175567749775 : ℚ) * 2 ^ ((-2 : ℤ) - 52) := by
    apply roundDouble_eval _ (-2) _ (by norm_num) (by norm_num) (by norm_num)
    apply rheQ_eq_lo
    · rw [Int.floor_eq_iff] <;> norm_num
    · norm_num
  have h2 : roundDouble ((5224175567749775 : ℚ) * 2 ^ ((-2 : ℤ) - 52) * 100)
      = (8162774324609023 : ℚ) * 2 ^ ((4 : ℤ) - 52) := by
    apply roundDouble_eval _ 4 _ (by norm_num) (by norm_num) (by norm_num)
    apply rheQ_eq_lo
    · rw [Int.floor_eq_iff] <;> norm_num
    · norm_num
  unfold pyProgress
  rw [h1, h2, Nat.floor_eq_iff (by positivity)]
  norm_num

/-! ### Claims C1, C2, C9: batch progress and failure isolation -/

/-- C1: in a batch run, a per-file failure never aborts the batch.  Every
discovered file receives exactly one outcome (the outcome list is indexed
by the discovered list), the failing files are exactly the ones appended
to the failure list and to the `conversion_errors.log` entries (in order),
and every discovered file is fully processed (two trace events each:
completion and progress), so the number of completed tasks equals the
number of discovered files. -/
theorem c1_failure_isolation (cfg : ConvConfig) (env : ConvEnv) (fs : FS) :
    (runConv cfg env fs).outcomes.length = (discover fs.files cfg.fileTypes).length ∧
    (runConv cfg env fs).failed
      = failedOf ((discover fs.files cfg.fileTypes).zip (runConv cfg env fs).outcomes) ∧
    (runConv cfg env fs).log
      = logOf ((discover fs.files cfg.fileTypes).zip (runConv cfg env fs).outcomes) ∧
    (runConv cfg env fs).events.length = 2 * (discover fs.files cfg.fileTypes).length := by
  simp only [runConv]
  exact ⟨runFiles_outcomes_length cfg env _ _ 0 fs,
    runFiles_failed_eq cfg env _ _ 0 fs,
    runFiles_log_eq cfg env _ _ 0 fs,
    runFiles_events_length cfg env _ _ 0 fs⟩

/-- C2 (corrected): for a batch over `n > 0` discovered files, the run
emits exactly one progress value per file, strictly after that file
completes (the event trace interleaves one completion event with one
progress emission per file); the value emitted after the `(k+1)`-th file
is `int((k+1)/n*100)` evaluated in IEEE binary64 arithmetic (`pyProgress`),
which can fall one below the exact rational floor (see the
counterexample); the sequence is non-decreasing, and its final value
is 100. -/
theorem c2_progress_reporting (cfg : ConvConfig) (env : ConvEnv) (fs : FS)
    (files : List FPath) (n : ℕ) (r : RunOut)
    (hfiles : files = discover fs.files cfg.fileTypes)
    (hr : r = runConv cfg env fs)
    (hn : n = files.length) (hpos : 0 < n) :
    r.events = interleaveEvents (files.zip r.outcomes) (progressVals r.events) ∧
    progressVals r.events = (List.range n).map (fun k => pyProgress (k + 1) n) ∧
    List.Pairwise (· ≤ ·) (progressVals r.events) ∧
    (progressVals r.events).getLast? = some 100 := by
  subst hfiles hr hn
  simp only [runConv]
  have hvals := runFiles_progressVals cfg env
    (discover fs.files cfg.fileTypes).length (discover fs.files cfg.fileTypes) 0 fs
  have hvals2 : progressVals (runFiles cfg env (discover fs.files cfg.fileTypes).length
      0 fs (discover fs.files cfg.fileTypes)).events
      = (List.range (discover fs.files cfg.fileTypes).length).map
          (fun k => pyProgress (k + 1) (discover fs.files cfg.fileTypes).length) := by
    rw [hvals]
    exact List.map_congr_left (fun k _ => by congr 1; omega)
  refine ⟨runFiles_events_eq cfg env _ _ 0 fs, hvals2, ?_, ?_⟩
  · rw [hvals2]; exact progressSeq_mono _
  · rw [hvals2]; exact progressSeq_last _ hpos

/-- C2 witness: a concrete one-file batch.  The hypotheses of
`c2_progress_reporting` are discharged at a run whose single discovered
file decodes successfully. -/
theorem c2_progress_reporting_witness :
    (runConv
        ⟨[], false, [".flac".data], ["dst".data], "192k".data, 44100, false⟩
        ⟨fun _ => Except.ok ⟨44100, 2, 2⟩, fun _ => none⟩
        ⟨[[ "a.flac".data ]], []⟩).events
      = interleaveEvents
          ((discover [[ "a.flac".data ]] [".flac".data]).zip
            (runConv
              ⟨[], false, [".flac".data], ["dst".data], "192k".data, 44100, false⟩
              ⟨fun _ => Except.ok ⟨44100, 2, 2⟩, fun _ => none⟩
              ⟨[[ "a.flac".data ]], []⟩).outcomes)
          (progressVals (runConv
              ⟨[], false, [".flac".data], ["dst".data], "192k".data, 44100, false⟩
              ⟨fun _ => Except.ok ⟨44100, 2, 2⟩, fun _ => none⟩
              ⟨[[ "a.flac".data ]], []⟩).events) := by
  exact (c2_progress_reporting _ _ _ _ 1 _ (by decide) rfl (by decide) (by decide)).1

/-- C2 counterexample to the original pointwise floor formula: the program
computes `int((i+1)/total*100)` in IEEE binary64 arithmetic, and after
file 29 of 100 this evaluates to 28 while the exact floor of
`29/100*100` is 29.  A concrete batch run over 100 discovered files
indeed records 28 as its 29th progress value. -/
theorem c2_floor_formula_counterexample :
    pyProgress 29 100 = 28 ∧
    ⌊((29 : ℚ) / 100) * 100⌋₊ = 29 ∧
    (progressVals (runConv
        ⟨[], false, [".flac".data], ["dst".data], "192k".data, 44100, false⟩
        ⟨fun _ => Except.ok ⟨44100, 2, 2⟩, fun _ => none⟩
        ⟨List.replicate 100 [ "a.flac".data ], []⟩).events)[28]?
      = some 28 := by
  refine ⟨pyProgress_29_100, by norm_num, ?_⟩
  simp only [runConv]
  rw [runFiles_progressVals, List.getElem?_map]
  rw [show (discover (FS.mk (List.replicate 100 [ "a.flac".data ]) []).files
      (ConvConfig.mk [] false [".flac".data] ["dst".data] "192k".data
        44100 false).fileTypes).length = 100 from by decide]
  rw [show (List.range 100)[28]? = some 28 from by decide]
  simp only [Option.map_some']
  norm_num [pyProgress_29_100]

/-- C9: when discovery matches zero files the run still terminates
normally: the loop body never executes, so the trace is empty (hence no
progress emission and no evaluation of the division by the file count),
the filesystem is untouched, and the `finished` signal carries an empty
failure list. -/
theorem c9_zero_files (cfg : ConvConfig) (env : ConvEnv) (fs : FS)
    (h : discover fs.files cfg.fileTypes = []) :
    runConv cfg env fs = ⟨fs, [], [], [], [], []⟩ ∧
    (runConv cfg env fs).events = [] ∧
    progressVals (runConv cfg env fs).events = [] ∧
    (runConv cfg env fs).failed = [] := by
  have heq : runConv cfg env fs = ⟨fs, [], [], [], [], []⟩ := by
    simp only [runConv, h]
    rfl
  exact ⟨heq, by rw [heq], by rw [heq]; rfl, by rw [heq]⟩

/-- C9 witness: a filesystem holding one file that matches no selected
extension. -/
theorem c9_zero_files_witness :
    runConv
        ⟨[], false, [".flac".data], ["dst".data], "192k".data, 44100, false⟩
        ⟨fun _ => Except.ok ⟨44100, 2, 2⟩, fun _ => none⟩
        ⟨[[ "readme.txt".data ]], []⟩
      = ⟨⟨[[ "readme.txt".data ]], []⟩, [], [], [], [], []⟩ := by
  exact (c9_zero_files _ _ _ (by decide)).1

/-! ### Claim C5: the special (gamma horizon) profile is fixed -/

theorem attemptConvert_call_shape (cfg : ConvConfig) (env : ConvEnv) (fs : FS)
    (p out : FPath) (c : ExportCall)
    (h : (attemptConvert cfg env fs p out).2.2 = some c) :
    ∃ a, env.decode p = Except.ok a ∧ c = buildCall cfg out a := by
  unfold attemptConvert at h
  split at h
  · simp at h
  · rename_i a ha
    dsimp only at h
    split at h <;> simp only [Prod.mk.injEq] at h <;>
      exact ⟨a, ha, (Option.some.inj h).symm⟩

theorem processFile_call_shape (cfg : ConvConfig) (env : ConvEnv) (fs : FS)
    (p : FPath) (c : ExportCall)
    (h : (processFile cfg env fs p).2.2 = some c) :
    ∃ out a, env.decode p = Except.ok a ∧ c = buildCall cfg out a := by
  simp only [processFile] at h
  split at h
  · exact ⟨p, attemptConvert_call_shape cfg env fs p p c h⟩
  · split at h
    · simp at h
    · exact ⟨_, attemptConvert_call_shape cfg env _ p _ c h⟩

theorem runFiles_calls_shape (cfg : ConvConfig) (env : ConvEnv) (total : ℕ) :
    ∀ (l : List FPath) (i : ℕ) (fs : FS),
      ∀ c ∈ (runFiles cfg env total i fs l).calls,
        ∃ out a, c = buildCall cfg out a := by
  intro l
  induction l with
  | nil => intro i fs c hc; simp [runFiles] at hc
  | cons p ps ih =>
    intro i fs c hc
    simp only [runFiles, List.mem_append] at hc
    rcases hc with hc | hc
    · cases hcall : (processFile cfg env fs p).2.2 with
      | none => rw [hcall] at hc; simp at hc
      | some c2 =>
        rw [hcall] at hc
        simp only [Option.toList_some, List.mem_singleton] at hc
        subst hc
        obtain ⟨out, a, _, hshape⟩ := processFile_call_shape cfg env fs p _ hcall
        exact ⟨out, a, hshape⟩
    · exact ih _ _ c hc

/-- C5: with the special profile selected, every export call the batch
makes — whatever the input audio metadata, the selected bitrate, and the
selected sample rate — uses the WAV container, the companded mu-law PCM
codec, 8000 Hz, one channel, and a one-byte (8-bit) sample width. -/
theorem c5_gamma_fixed_profile (cfg : ConvConfig) (env : ConvEnv) (fs : FS)
    (hg : cfg.gammaHorizon = true) :
    ∀ c ∈ (runConv cfg env fs).calls,
      c.format = "wav".data ∧
      c.codec = some "pcm_ulaw".data ∧
      c.bitrate = none ∧
      c.audio.frameRate = 8000 ∧
      c.audio.channels = 1 ∧
      c.audio.sampleWidth = 1 := by
  simp only [runConv]
  intro c hc
  obtain ⟨out, a, rfl⟩ := runFiles_calls_shape cfg env _ _ 0 fs c hc
  simp [buildCall, hg, Audio.setFrameRate, Audio.setChannels, Audio.setSampleWidth]

/-- C5 witness: a gamma-horizon run over one file whose source audio is
22050 Hz, 6 channels, 3 bytes per sample; the single export call has the
fixed telephony profile. -/
theorem c5_gamma_fixed_profile_witness :
    (ExportCall.format
        ⟨["dst".data, "a.wav".data], "wav".data, some "pcm_ulaw".data, none, ⟨8000, 1, 1⟩⟩)
      = "wav".data ∧
    (ExportCall.audio
        ⟨["dst".data, "a.wav".data], "wav".data, some "pcm_ulaw".data, none, ⟨8000, 1, 1⟩⟩).frameRate
      = 8000 := by
  have h := c5_gamma_fixed_profile
    ⟨["src".data], false, [".flac".data], ["dst".data], "192k".data, 44100, true⟩
    ⟨fun _ => Except.ok ⟨22050, 6, 3⟩, fun _ => none⟩
    ⟨[["src".data, "a.flac".data]], []⟩
    (by decide)
    ⟨["dst".data, "a.wav".data], "wav".data, some "pcm_ulaw".data, none, ⟨8000, 1, 1⟩⟩
    (by decide)
  exact ⟨h.1, h.2.2.2.1⟩

/-! ### Claim C4: output path resolution and directory creation -/

theorem pathInsert_self_mem (l : List FPath) (p : FPath) : p ∈ pathInsert l p := by
  unfold pathInsert
  split
  · assumption
  · simp

theorem pathInsert_mem_of_mem (l : List FPath) (x q : FPath) (h : q ∈ l) :
    q ∈ pathInsert l x := by
  unfold pathInsert
  split
  · exact h
  · exact List.mem_append_left _ h

theorem pathInsert_eq_of_mem (l : List FPath) (x : FPath) (h : x ∈ l) :
    pathInsert l x = l := by
  unfold pathInsert
  exact if_pos h

/-- Extension replacement commutes with prepending directory components:
the splitext-based rewrite only touches the last component. -/
theorem replaceExtLast_append (dest rel : FPath) (ext : PyStr) (h : rel ≠ []) :
    replaceExtLast (dest ++ rel) ext = dest ++ replaceExtLast rel ext := by
  unfold replaceExtLast lastName
  rw [List.dropLast_append_of_ne_nil dest h]
  have h1 : (dest ++ rel).getLastD ([] : PyStr) = rel.getLastD [] := by
    rw [List.getLastD_eq_getLast?, List.getLastD_eq_getLast?,
      List.getLast?_append_of_ne_nil dest h]
  rw [h1, List.append_assoc]

/-- Replacing the extension does not change the parent directory. -/
theorem dirname_replaceExtLast (q : FPath) (ext : PyStr) :
    dirname (replaceExtLast q ext) = dirname q := by
  unfold dirname replaceExtLast
  exact List.dropLast_concat

/-- Conversion attempts never touch the directory set. -/
theorem attemptConvert_dirs (cfg : ConvConfig) (env : ConvEnv) (fs : FS) (p out : FPath) :
    ((attemptConvert cfg env fs p out).1).dirs = fs.dirs := by
  unfold attemptConvert
  split
  · rfl
  · dsimp only
    split <;> rfl

/-- In copy mode the loop body always records the output's parent
directory as created (line 69, `exist_ok=True`). -/
theorem processFile_dirs_mem (cfg : ConvConfig) (env : ConvEnv) (fs : FS) (p : FPath)
    (hov : cfg.overwrite = false) :
    dirname (cfg.destination ++ relpath p cfg.folder) ∈ ((processFile cfg env fs p).1).dirs := by
  simp only [processFile, hov, Bool.false_eq_true, if_false]
  split
  · exact pathInsert_self_mem fs.dirs _
  · rw [attemptConvert_dirs]
    exact pathInsert_self_mem fs.dirs _

/-- C4: in overwrite mode the resolved output path is the input path
unchanged; in copy mode it is the destination root joined with the input
taken relative to the source root, with the extension replaced by `.wav`
under the special profile and `.mp3` otherwise, and after the loop body
runs, the output's parent directory exists. -/
theorem c4_output_path (cfg : ConvConfig) (env : ConvEnv) (fs : FS) (p rel : FPath) :
    (cfg.overwrite = true → resolveOutput cfg p = p) ∧
    (cfg.overwrite = false → p = cfg.folder ++ rel → rel ≠ [] →
      resolveOutput cfg p
        = cfg.destination
            ++ replaceExtLast rel (if cfg.gammaHorizon then ".wav".data else ".mp3".data) ∧
      dirname (resolveOutput cfg p) ∈ ((processFile cfg env fs p).1).dirs) := by
  constructor
  · intro hov
    simp [resolveOutput, hov]
  · intro hov hp hne
    have hneg : ¬(cfg.overwrite = true) := by simp [hov]
    have hrel : relpath p cfg.folder = rel := by
      rw [hp]
      unfold relpath
      exact List.drop_left _ _
    constructor
    · rw [resolveOutput, if_neg hneg, hrel, replaceExtLast_append _ _ _ hne]
      rfl
    · have h3 : dirname (resolveOutput cfg p) = dirname (cfg.destination ++ relpath p cfg.folder) := by
        rw [resolveOutput, if_neg hneg]
        exact dirname_replaceExtLast _ _
      rw [h3]
      exact processFile_dirs_mem cfg env fs p hov

/-- C4 witness: a concrete copy-mode gamma run; the output path is
`dst/sub/b.wav` for input `src/sub/b.flac` and its parent directory is in
the directory set after the body runs. -/
theorem c4_output_path_witness :
    resolveOutput
        ⟨["src".data], false, [".flac".data], ["dst".data], "192k".data, 44100, true⟩
        ["src".data, "sub".data, "b.flac".data]
      = ["dst".data]
          ++ replaceExtLast ["sub".data, "b.flac".data]
              (if (true : Bool) then ".wav".data else ".mp3".data) := by
  have h := (c4_output_path
    ⟨["src".data], false, [".flac".data], ["dst".data], "192k".data, 44100, true⟩
    ⟨fun _ => Except.ok ⟨44100, 2, 2⟩, fun _ => none⟩
    ⟨[], []⟩
    ["src".data, "sub".data, "b.flac".data]
    ["sub".data, "b.flac".data]).2 rfl rfl (by decide)
  exact h.1

/-! ### Claim C3: skip-if-exists and idempotence of a second run -/

theorem buildCall_path (cfg : ConvConfig) (out : FPath) (a : Audio) :
    (buildCall cfg out a).path = out := by
  unfold buildCall
  split <;> rfl

theorem processFile_skip (cfg : ConvConfig) (env : ConvEnv) (fs : FS) (p : FPath)
    (hov : cfg.overwrite = false) (hex : resolveOutput cfg p ∈ fs.files) :
    processFile cfg env fs p
      = ({ fs with dirs := pathInsert fs.dirs (dirname (cfg.destination ++ relpath p cfg.folder)) },
         Outcome.skipped, none) := by
  have hre : replaceExtLast (cfg.destination ++ relpath p cfg.folder) (outExt cfg)
      = resolveOutput cfg p := by
    rw [resolveOutput, if_neg (by simp [hov])]
  simp only [processFile, hov, Bool.false_eq_true, if_false]
  rw [if_pos]
  rw [hre]
  exact hex

theorem attemptConvert_files_mono (cfg : ConvConfig) (env : ConvEnv) (fs : FS)
    (p out q : FPath) (h : q ∈ fs.files) :
    q ∈ ((attemptConvert cfg env fs p out).1).files := by
  unfold attemptConvert
  split
  · exact h
  · dsimp only
    split
    · exact h
    · exact pathInsert_mem_of_mem _ _ _ h

theorem processFile_files_mono (cfg : ConvConfig) (env : ConvEnv) (fs : FS)
    (p q : FPath) (h : q ∈ fs.files) :
    q ∈ ((processFile cfg env fs p).1).files := by
  simp only [processFile]
  split
  · exact attemptConvert_files_mono cfg env fs p p q h
  · split
    · exact h
    · exact attemptConvert_files_mono cfg env _ p _ q h

theorem processFile_dirs_mono (cfg : ConvConfig) (env : ConvEnv) (fs : FS)
    (p q : FPath) (h : q ∈ fs.dirs) :
    q ∈ ((processFile cfg env fs p).1).dirs := by
  simp only [processFile]
  split
  · rw [attemptConvert_dirs]
    exact h
  · split
    · exact pathInsert_mem_of_mem _ _ _ h
    · rw [attemptConvert_dirs]
      exact pathInsert_mem_of_mem _ _ _ h

theorem runFiles_files_mono (cfg : ConvConfig) (env : ConvEnv) (total : ℕ) :
    ∀ (l : List FPath) (i : ℕ) (fs : FS) (q : FPath),
      q ∈ fs.files → q ∈ (runFiles cfg env total i fs l).fs.files := by
  intro l
  induction l with
  | nil => intro i fs q h; exact h
  | cons p ps ih =>
    intro i fs q h
    simp only [runFiles]
    exact ih (i + 1) _ q (processFile_files_mono cfg env fs p q h)

theorem runFiles_dirs_mono (cfg : ConvConfig) (env : ConvEnv) (total : ℕ) :
    ∀ (l : List FPath) (i : ℕ) (fs : FS) (q : FPath),
      q ∈ fs.dirs → q ∈ (runFiles cfg env total i fs l).fs.dirs := by
  intro l
  induction l with
  | nil => intro i fs q h; exact h
  | cons p ps ih =>
    intro i fs q h
    simp only [runFiles]
    exact ih (i + 1) _ q (processFile_dirs_mono cfg env fs p q h)

/-- After the loop body runs on `p` (copy mode), either the resolved
output exists or the environment makes the conversion of `p` fail. -/
theorem processFile_post (cfg : ConvConfig) (env : ConvEnv) (fs : FS) (p : FPath)
    (hov : cfg.overwrite = false) :
    resolveOutput cfg p ∈ ((processFile cfg env fs p).1).files ∨
      convertFails cfg env p (resolveOutput cfg p) := by
  have hre : replaceExtLast (cfg.destination ++ relpath p cfg.folder) (outExt cfg)
      = resolveOutput cfg p := by
    rw [resolveOutput, if_neg (by simp [hov])]
  simp only [processFile, hov, Bool.false_eq_true, if_false]
  rw [hre]
  split
  · rename_i hmem
    exact Or.inl hmem
  · cases hdec : env.decode p with
    | error e =>
      right
      simp [convertFails, hdec]
    | ok a =>
      cases hexp : env.exportErr (buildCall cfg (resolveOutput cfg p) a) with
      | some e =>
        right
        simp [convertFails, hdec, hexp]
      | none =>
        left
        simp only [attemptConvert, hdec, hexp]
        exact pathInsert_self_mem _ _

/-- After a copy-mode run, each processed file either has its output on
disk or fails deterministically (property of the oracles alone). -/
theorem runFiles_post (cfg : ConvConfig) (env : ConvEnv) (total : ℕ)
    (hov : cfg.overwrite = false) :
    ∀ (l : List FPath) (i : ℕ) (fs : FS) (p : FPath), p ∈ l →
      resolveOutput cfg p ∈ (runFiles cfg env total i fs l).fs.files ∨
        convertFails cfg env p (resolveOutput cfg p) := by
  intro l
  induction l with
  | nil => intro i fs p hp; cases hp
  | cons q ps ih =>
    intro i fs p hp
    rcases List.mem_cons.mp hp with rfl | hmem
    · rcases processFile_post cfg env fs p hov with hin | hfail
      · left
        simp only [runFiles]
        exact runFiles_files_mono cfg env total ps (i + 1) _ _ hin
      · exact Or.inr hfail
    · simp only [runFiles]
      exact ih (i + 1) _ p hmem

/-- After a copy-mode run, each processed file has its output directory
recorded as existing. -/
theorem runFiles_dir_post (cfg : ConvConfig) (env : ConvEnv) (total : ℕ)
    (hov : cfg.overwrite = false) :
    ∀ (l : List FPath) (i : ℕ) (fs : FS) (p : FPath), p ∈ l →
      dirname (cfg.destination ++ relpath p cfg.folder)
        ∈ (runFiles cfg env total i fs l).fs.dirs := by
  intro l
  induction l with
  | nil => intro i fs p hp; cases hp
  | cons q ps ih =>
    intro i fs p hp
    rcases List.mem_cons.mp hp with rfl | hmem
    · simp only [runFiles]
      exact runFiles_dirs_mono cfg env total ps (i + 1) _ _
        (processFile_dirs_mem cfg env fs p hov)
    · simp only [runFiles]
      exact ih (i + 1) _ p hmem

/-- A copy-mode loop body leaves the filesystem unchanged and makes no
export call into the existing file set, whenever the file's output is
already present or its conversion fails, and its output directory is
already present. -/
theorem processFile_stable (cfg : ConvConfig) (env : ConvEnv) (fs : FS) (q : FPath)
    (hov : cfg.overwrite = false)
    (hq : resolveOutput cfg q ∈ fs.files ∨ convertFails cfg env q (resolveOutput cfg q))
    (hqd : dirname (cfg.destination ++ relpath q cfg.folder) ∈ fs.dirs) :
    (processFile cfg env fs q).1 = fs ∧
      ∀ c, (processFile cfg env fs q).2.2 = some c → c.path ∉ fs.files := by
  have hre : replaceExtLast (cfg.destination ++ relpath q cfg.folder) (outExt cfg)
      = resolveOutput cfg q := by
    rw [resolveOutput, if_neg (by simp [hov])]
  have hfs1 : ({ fs with dirs := pathInsert fs.dirs (dirname (cfg.destination ++ relpath q cfg.folder)) } : FS) = fs := by
    rw [pathInsert_eq_of_mem _ _ hqd]
  simp only [processFile, hov, Bool.false_eq_true, if_false]
  rw [hre]
  split
  · exact ⟨hfs1, fun c hc => by simp at hc⟩
  · rename_i hmem
    rw [hfs1]
    have hfail : convertFails cfg env q (resolveOutput cfg q) := hq.resolve_left hmem
    unfold convertFails at hfail
    unfold attemptConvert
    cases hdec : env.decode q with
    | error e =>
      exact ⟨rfl, fun c hc => by simp at hc⟩
    | ok a =>
      rw [hdec] at hfail
      dsimp only
      cases hexp : env.exportErr (buildCall cfg (resolveOutput cfg q) a) with
      | some e =>
        refine ⟨rfl, fun c hc => ?_⟩
        simp only [Option.some.injEq] at hc
        rw [← hc, buildCall_path]
        exact hmem
      | none => exact absurd hexp hfail

/-- A copy-mode run over files that are all already converted-or-failing
changes nothing and makes no export call into the existing file set. -/
theorem runFiles_stable (cfg : ConvConfig) (env : ConvEnv) (total : ℕ)
    (hov : cfg.overwrite = false) :
    ∀ (l : List FPath) (i : ℕ) (fs : FS),
      (∀ p ∈ l,
        (resolveOutput cfg p ∈ fs.files ∨ convertFails cfg env p (resolveOutput cfg p)) ∧
        dirname (cfg.destination ++ relpath p cfg.folder) ∈ fs.dirs) →
      (runFiles cfg env total i fs l).fs = fs ∧
        ∀ c ∈ (runFiles cfg env total i fs l).calls, c.path ∉ fs.files := by
  intro l
  induction l with
  | nil => intro i fs _; exact ⟨rfl, fun c hc => by simp [runFiles] at hc⟩
  | cons q ps ih =>
    intro i fs h
    obtain ⟨hq, hqd⟩ := h q (List.mem_cons_self q ps)
    obtain ⟨hfs, hcall⟩ := processFile_stable cfg env fs q hov hq hqd
    have hrest := ih (i + 1) fs (fun p hp => h p (List.mem_cons_of_mem q hp))
    constructor
    · simp only [runFiles]
      rw [hfs]
      exact hrest.1
    · intro c hc
      simp only [runFiles, List.mem_append] at hc
      rw [hfs] at hc
      rcases hc with hc | hc
      · cases hcl : (processFile cfg env fs q).2.2 with
        | none => rw [hcl] at hc; simp at hc
        | some c2 =>
          rw [hcl] at hc
          simp only [Option.toList_some, List.mem_singleton] at hc
          subst hc
          exact hcall _ hcl
      · exact hrest.2 c hc

/-- C3: with overwrite off, (1) a file whose resolved output already
exists is skipped — the loop body returns `skipped`, makes no export
call, performs no decode (its result does not consult the oracles), and
touches nothing but the directory set; (2) running the batch a second
time over identical inputs (discovery returns the same list) leaves the
filesystem exactly as after the first run and makes no export call whose
target is a file present after the first run — in particular none of the
files the first run produced is re-encoded. -/
theorem c3_skip_and_idempotence (cfg : ConvConfig) (env : ConvEnv)
    (hov : cfg.overwrite = false) :
    (∀ (fs : FS) (p : FPath), resolveOutput cfg p ∈ fs.files →
      processFile cfg env fs p
        = ({ fs with dirs := pathInsert fs.dirs (dirname (cfg.destination ++ relpath p cfg.folder)) },
           Outcome.skipped, none)) ∧
    (∀ fs0 : FS,
      discover (runConv cfg env fs0).fs.files cfg.fileTypes
          = discover fs0.files cfg.fileTypes →
      (runConv cfg env (runConv cfg env fs0).fs).fs = (runConv cfg env fs0).fs ∧
        ∀ c ∈ (runConv cfg env (runConv cfg env fs0).fs).calls,
          c.path ∉ (runConv cfg env fs0).fs.files) := by
  refine ⟨fun fs p hex => processFile_skip cfg env fs p hov hex, fun fs0 hsame => ?_⟩
  have hr2 : runConv cfg env (runConv cfg env fs0).fs
      = runFiles cfg env (discover fs0.files cfg.fileTypes).length 0
          (runConv cfg env fs0).fs (discover fs0.files cfg.fileTypes) := by
    rw [show runConv cfg env (runConv cfg env fs0).fs
        = runFiles cfg env (discover (runConv cfg env fs0).fs.files cfg.fileTypes).length 0
            (runConv cfg env fs0).fs (discover (runConv cfg env fs0).fs.files cfg.fileTypes)
      from rfl, hsame]
  have hpre : ∀ p ∈ discover fs0.files cfg.fileTypes,
      (resolveOutput cfg p ∈ (runConv cfg env fs0).fs.files ∨
        convertFails cfg env p (resolveOutput cfg p)) ∧
      dirname (cfg.destination ++ relpath p cfg.folder) ∈ (runConv cfg env fs0).fs.dirs := by
    intro p hp
    exact ⟨runFiles_post cfg env _ hov _ 0 fs0 p hp,
      runFiles_dir_post cfg env _ hov _ 0 fs0 p hp⟩
  obtain ⟨hfs, hcalls⟩ := runFiles_stable cfg env
    (discover fs0.files cfg.fileTypes).length hov
    (discover fs0.files cfg.fileTypes) 0 (runConv cfg env fs0).fs hpre
  rw [hr2]
  exact ⟨hfs, hcalls⟩

/-- C3 witness: a three-file batch (one corrupt) run twice; the second
run changes nothing and re-encodes nothing. -/
theorem c3_skip_and_idempotence_witness :
    (runConv
        ⟨["src".data], false, [".flac".data], ["dst".data], "192k".data, 44100, false⟩
        ⟨fun p => if p = ["src".data, "bad.flac".data] then Except.error "corrupt".data
            else Except.ok ⟨44100, 2, 2⟩, fun _ => none⟩
        (runConv
          ⟨["src".data], false, [".flac".data], ["dst".data], "192k".data, 44100, false⟩
          ⟨fun p => if p = ["src".data, "bad.flac".data] then Except.error "corrupt".data
              else Except.ok ⟨44100, 2, 2⟩, fun _ => none⟩
          ⟨[["src".data, "a.flac".data], ["src".data, "bad.flac".data],
            ["src".data, "sub".data, "b.flac".data]], []⟩).fs).fs
      = (runConv
          ⟨["src".data], false, [".flac".data], ["dst".data], "192k".data, 44100, false⟩
          ⟨fun p => if p = ["src".data, "bad.flac".data] then Except.error "corrupt".data
              else Except.ok ⟨44100, 2, 2⟩, fun _ => none⟩
          ⟨[["src".data, "a.flac".data], ["src".data, "bad.flac".data],
            ["src".data, "sub".data, "b.flac".data]], []⟩).fs := by
  exact ((c3_skip_and_idempotence _ _ rfl).2 _ (by decide)).1

/-! ### Lemmas about the cue line parser -/

theorem pyStartswith_append (pre r : PyStr) : pyStartswith pre (pre ++ r) = true := by
  unfold pyStartswith
  induction pre with
  | nil => cases r <;> rfl
  | cons c cs ih => simp [List.isPrefixOf, ih]

theorem pyStartswith_exists (pre s : PyStr) (h : pyStartswith pre s = true) :
    ∃ r, s = pre ++ r := by
  unfold pyStartswith at h
  induction pre generalizing s with
  | nil => exact ⟨s, rfl⟩
  | cons c cs ih =>
    cases s with
    | nil => simp [List.isPrefixOf] at h
    | cons d ds =>
      simp only [List.isPrefixOf, Bool.and_eq_true, beq_iff_eq] at h
      obtain ⟨rfl, h2⟩ := h
      obtain ⟨r, hr⟩ := ih ds h2
      exact ⟨r, by rw [hr]; rfl⟩

theorem pyAfterFirst_self (sep r : PyStr) (h : sep ≠ []) :
    pyAfterFirst sep (sep ++ r) = r := by
  cases sep with
  | nil => exact absurd rfl h
  | cons c cs =>
    show pyAfterFirst (c :: cs) (c :: (cs ++ r)) = r
    unfold pyAfterFirst
    rw [if_pos]
    · show ((c :: cs) ++ r).drop (c :: cs).length = r
      exact List.drop_left _ _
    · show List.isPrefixOf (c :: cs) ((c :: cs) ++ r) = true
      exact pyStartswith_append (c :: cs) r

/-- The `INDEX 01` branch: a line whose stripped form is `INDEX 01`
followed by a three-field colon timestamp with integer fields stores the
converted start offset into the current track record, whatever that
record holds — in particular also when no `TRACK` line has been seen. -/
theorem indexLine_sets_start (st : List CueRec × CueRec) (raw restRaw mS sS fS : PyStr)
    (m s f : Int)
    (hstrip : pyStrip raw = "INDEX 01".data ++ restRaw)
    (hsplit : pySplitChar ':' (pyStrip restRaw) = [mS, sS, fS])
    (hm : pyInt mS = some m) (hs : pyInt sS = some s) (hf : pyInt fS = some f) :
    parseCueLine st raw
      = Except.ok (st.1,
          { st.2 with start := some ((m * 60 + s) * 1000 + Int.fdiv (f * 1000) 75) }) := by
  have h1 : pyStartswith ['T','R','A','C','K']
      ('I' :: 'N' :: 'D' :: 'E' :: 'X' :: ' ' :: '0' :: '1' ::restRaw) = false := rfl
  have h2 : pyStartswith ['T','I','T','L','E']
      ('I' :: 'N' :: 'D' :: 'E' :: 'X' :: ' ' :: '0' :: '1' ::restRaw) = false := rfl
  have h3 : pyStartswith ['P','E','R','F','O','R','M','E','R']
      ('I' :: 'N' :: 'D' :: 'E' :: 'X' :: ' ' :: '0' :: '1' ::restRaw) = false := rfl
  have h4 : pyStartswith ['I','N','D','E','X',' ','0','1']
      ('I' :: 'N' :: 'D' :: 'E' :: 'X' :: ' ' :: '0' :: '1' ::restRaw) = true :=
    pyStartswith_append ['I','N','D','E','X',' ','0','1'] restRaw
  have h5 : pyAfterFirst ['I','N','D','E','X',' ','0','1']
      ('I' :: 'N' :: 'D' :: 'E' :: 'X' :: ' ' :: '0' :: '1' ::restRaw) = restRaw :=
    pyAfterFirst_self ['I','N','D','E','X',' ','0','1'] restRaw (by decide)
  simp [parseCueLine, hstrip, h1, h2, h3, h4, h5, hsplit, hm, hs, hf]

/-- An `INDEX` line that is not an `INDEX 01` line falls through every
branch and leaves the parse state unchanged. -/
theorem indexLine_non01_ignored (st : List CueRec × CueRec) (raw : PyStr)
    (hidx : pyStartswith "INDEX".data (pyStrip raw) = true)
    (h01 : pyStartswith "INDEX 01".data (pyStrip raw) = false) :
    parseCueLine st raw = Except.ok st := by
  obtain ⟨r, hr⟩ := pyStartswith_exists _ _ hidx
  have h1 : pyStartswith ['T','R','A','C','K'] ('I' :: 'N' :: 'D' :: 'E' :: 'X' ::r) = false := rfl
  have h2 : pyStartswith ['T','I','T','L','E'] ('I' :: 'N' :: 'D' :: 'E' :: 'X' ::r) = false := rfl
  have h3 : pyStartswith ['P','E','R','F','O','R','M','E','R']
      ('I' :: 'N' :: 'D' :: 'E' :: 'X' ::r) = false := rfl
  rw [hr] at h01
  simp [parseCueLine, hr, h1, h2, h3]
  intro hcond
  exact absurd (h01.symm.trans hcond) (by decide)

/-- C6: a cue line of the form `INDEX 01 MM:SS:FF` with integer fields
stores the current track's start offset as
`(MM*60 + SS)*1000 + floor(FF*1000/75)` milliseconds; in particular
`INDEX 01 03:02:37` yields 182493 ms; an `INDEX` line that is not
`INDEX 01` (for example `INDEX 00`) sets no start offset and changes
nothing. -/
theorem c6_index_timestamp :
    (∀ (st : List CueRec × CueRec) (raw restRaw mS sS fS : PyStr) (m s f : Int),
      pyStrip raw = "INDEX 01".data ++ restRaw →
      pySplitChar ':' (pyStrip restRaw) = [mS, sS, fS] →
      pyInt mS = some m → pyInt sS = some s → pyInt fS = some f →
      parseCueLine st raw
        = Except.ok (st.1,
            { st.2 with start := some ((m * 60 + s) * 1000 + Int.fdiv (f * 1000) 75) })) ∧
    parseCueLine ([], CueRec.mk0) "INDEX 01 03:02:37".data
      = Except.ok ([], { CueRec.mk0 with start := some 182493 }) ∧
    (∀ (st : List CueRec × CueRec) (raw : PyStr),
      pyStartswith "INDEX".data (pyStrip raw) = true →
      pyStartswith "INDEX 01".data (pyStrip raw) = false →
      parseCueLine st raw = Except.ok st) := by
  refine ⟨?_, by decide, indexLine_non01_ignored⟩
  intro st raw restRaw mS sS fS m s f hstrip hsplit hm hs hf
  exact indexLine_sets_start st raw restRaw mS sS fS m s f hstrip hsplit hm hs hf

/-- C6 witness: `INDEX 01 10:00:05` from an empty current record stores
`600066` ms, exercising the general timestamp conjunct at concrete
strings; and `INDEX 00 00:00:00` is ignored. -/
theorem c6_index_timestamp_witness :
    parseCueLine ([], CueRec.mk0) "INDEX 01 10:00:05".data
      = Except.ok ([], { CueRec.mk0 with start := some 600066 }) ∧
    parseCueLine ([], CueRec.mk0) "INDEX 00 00:00:00".data
      = Except.ok ([], CueRec.mk0) := by
  constructor
  · have h := c6_index_timestamp.1 ([], CueRec.mk0) "INDEX 01 10:00:05".data
      " 10:00:05".data "10".data "00".data "05".data 10 0 5
      (by decide) (by decide) (by decide) (by decide) (by decide)
    exact h.trans (by decide)
  · exact c6_index_timestamp.2.2 ([], CueRec.mk0) "INDEX 00 00:00:00".data
      (by decide) (by decide)

/-! ### Claim C7: a malformed TRACK line aborts the whole parse -/

/-- A `TRACK` line that does not carry a numeric track number as its
second whitespace token (the token is missing, or `int` rejects it). -/
def badTrackLine (l : PyStr) : Bool :=
  pyStartswith "TRACK".data l &&
    (match (pySplitWs l).get? 1 with
     | none => true
     | some tok => (pyInt tok).isNone)

/-- Processing a malformed `TRACK` line raises, whatever the parser
state. -/
theorem badTrack_errors (raw : PyStr) (hbad : badTrackLine (pyStrip raw) = true) :
    ∀ st, ∃ e, parseCueLine st raw = Except.error e := by
  intro st
  unfold badTrackLine at hbad
  rw [Bool.and_eq_true] at hbad
  obtain ⟨htr, htok⟩ := hbad
  cases hget : (pySplitWs (pyStrip raw)).get? 1 with
  | none =>
    rw [List.get?_eq_getElem?] at hget
    refine ⟨"IndexError: list index out of range".data, ?_⟩
    simp [parseCueLine, htr, hget]
  | some tok =>
    rw [hget] at htok
    simp only [Option.isNone_iff_eq_none] at htok
    rw [List.get?_eq_getElem?] at hget
    refine ⟨"ValueError: invalid literal for int: ".data ++ tok, ?_⟩
    simp [parseCueLine, htr, hget, htok]

/-- A bad `TRACK` line anywhere in the input makes the whole line fold
fail, from any starting state. -/
theorem parseCueLines_error (lines : List PyStr) :
    ∀ st, (∃ l ∈ lines, badTrackLine (pyStrip l) = true) →
      ∃ e, parseCueLines st lines = Except.error e := by
  induction lines with
  | nil =>
    intro st h
    obtain ⟨l, hl, _⟩ := h
    cases hl
  | cons l ls ih =>
    intro st h
    obtain ⟨x, hx, hbad⟩ := h
    rcases List.mem_cons.mp hx with rfl | hmem
    · obtain ⟨e, he⟩ := badTrack_errors x hbad st
      exact ⟨e, by simp [parseCueLines, he]⟩
    · cases hres : parseCueLine st l with
      | error e => exact ⟨e, by simp [parseCueLines, hres]⟩
      | ok st2 =>
        obtain ⟨e, he⟩ := ih st2 ⟨x, hmem, hbad⟩
        exact ⟨e, by simp [parseCueLines, hres, he]⟩

theorem parse_cue_error (lines : List PyStr)
    (h : ∃ l ∈ lines, badTrackLine (pyStrip l) = true) :
    ∃ e, parse_cue lines = Except.error e := by
  obtain ⟨e, he⟩ := parseCueLines_error lines ([], CueRec.mk0) h
  exact ⟨e, by simp [parse_cue, he]⟩

/-- C7: if any TRACK line lacks a numeric track number as its second
token, the whole cue parse fails, the split run exports zero tracks and
emits no per-track progress, and it reports exactly one general-error
failure entry. -/
theorem c7_malformed_track (lines : List PyStr) (env : CueEnv)
    (h : ∃ l ∈ lines, badTrackLine (pyStrip l) = true) :
    (∃ e, parse_cue lines = Except.error e) ∧
    (cueRun true true lines env).calls = [] ∧
    (cueRun true true lines env).progress = [] ∧
    ∃ e, (cueRun true true lines env).failed = ["General error: ".data ++ e] := by
  obtain ⟨e, he⟩ := parse_cue_error lines h
  exact ⟨⟨e, he⟩, by simp [cueRun, he], by simp [cueRun, he], ⟨e, by simp [cueRun, he]⟩⟩

/-- C7 witness: the single line `TRACK AB AUDIO` (non-numeric id). -/
theorem c7_malformed_track_witness :
    (cueRun true true ["TRACK AB AUDIO".data] ⟨Except.ok 1000, fun _ => none⟩).calls = [] ∧
    (cueRun true true ["TRACK AB AUDIO".data] ⟨Except.ok 1000, fun _ => none⟩).progress = [] := by
  have h := c7_malformed_track ["TRACK AB AUDIO".data] ⟨Except.ok 1000, fun _ => none⟩
    ⟨"TRACK AB AUDIO".data, by decide, by decide⟩
  exact ⟨h.2.1, h.2.2.1⟩

/-! ### Claim C8: slice bounds and file naming of the splitter -/

/-- Specification-side description of the export call for track `i`:
slice from `tracks[i].start` to `tracks[i+1].start` (to the end of the
buffer for the last track), file name
`{2-digit zero-padded number} - {sanitized title}.flac` where the
sanitization keeps exactly the alphanumeric, space, hyphen and underscore
characters and trims surrounding whitespace, and a missing title defaults
to `Track NN`. -/
def specCall (tracks : List CueRec) (audioLen : Int) (i : ℕ) : SplitCall :=
  let t := tracks.getD i CueRec.mk0
  let tn := pyZfill 2 (pyIntRepr (t.number.getD 0))
  { start := t.start.getD 0
    stop :=
      if i + 1 < tracks.length then ((tracks.getD (i + 1) CueRec.mk0).start).getD 0
      else audioLen
    filename :=
      tn ++ " - ".data
        ++ pyStrip ((t.title.getD ("Track ".data ++ tn)).filter
            (fun c => pyIsAlnum c || c == ' ' || c == '-' || c == '_'))
        ++ ".flac".data }

/-- A track with a start offset and a number, whose successor (if any)
has a start offset, is exported exactly as the specification describes;
the export call is made whether or not the export succeeds. -/
theorem perTrack_ok (exportErr : SplitCall → Option PyStr) (tracks : List CueRec)
    (audioLen : Int) (i : ℕ) (t : CueRec) (stv numv : Int)
    (hti : tracks[i]? = some t)
    (hstv : t.start = some stv) (hnumv : t.number = some numv)
    (hnext : ∀ t2, tracks[i + 1]? = some t2 → t2.start.isSome = true) :
    perTrack exportErr tracks audioLen i t
      = (some (specCall tracks audioLen i), exportErr (specCall tracks audioLen i)) := by
  have hgetDi : tracks.getD i CueRec.mk0 = t := by
    rw [List.getD_eq_getElem?_getD, hti]
    rfl
  by_cases hlt : i + 1 < tracks.length
  · have hti2 : tracks[i + 1]? = some tracks[i + 1] := List.getElem?_eq_getElem hlt
    obtain ⟨s2, hs2⟩ := Option.isSome_iff_exists.mp (hnext tracks[i + 1] hti2)
    have hgetD2 : tracks.getD (i + 1) CueRec.mk0 = tracks[i + 1] := by
      rw [List.getD_eq_getElem?_getD, hti2]
      rfl
    simp only [perTrack, specCall, hgetDi, hgetD2, hstv, hnumv, hs2, hlt, if_true,
      Option.getD_some]
    cases exportErr
        ⟨stv, s2,
          pyZfill 2 (pyIntRepr numv) ++ " - ".data
            ++ pyStrip ((t.title.getD ("Track ".data ++ pyZfill 2 (pyIntRepr numv))).filter
                (fun c => pyIsAlnum c || c == ' ' || c == '-' || c == '_'))
            ++ ".flac".data⟩ <;>
      rfl
  · simp only [perTrack, specCall, hgetDi, hstv, hnumv, hlt, if_false, Option.getD_some]
    cases exportErr
        ⟨stv, audioLen,
          pyZfill 2 (pyIntRepr numv) ++ " - ".data
            ++ pyStrip ((t.title.getD ("Track ".data ++ pyZfill 2 (pyIntRepr numv))).filter
                (fun c => pyIsAlnum c || c == ' ' || c == '-' || c == '_'))
            ++ ".flac".data⟩ <;>
      rfl

theorem splitLoop_progress_length (exportErr : SplitCall → Option PyStr)
    (tracks : List CueRec) (audioLen : Int) (total : ℕ) :
    ∀ (ts : List CueRec) (i : ℕ),
      (splitLoop exportErr tracks audioLen total i ts).progress.length = ts.length := by
  intro ts
  induction ts with
  | nil => intro i; rfl
  | cons t ts2 ih => intro i; simp [splitLoop, ih (i + 1)]

/-- Over a suffix of tracks all of which carry a start offset and a
number, the loop makes exactly the specification's export call for each
index, in order. -/
theorem splitLoop_calls_spec (exportErr : SplitCall → Option PyStr)
    (tracks : List CueRec) (audioLen : Int) (total : ℕ) :
    ∀ (ts : List CueRec) (i : ℕ), tracks.drop i = ts →
      (∀ t ∈ ts, t.start.isSome = true ∧ t.number.isSome = true) →
      (splitLoop exportErr tracks audioLen total i ts).calls
        = (List.range ts.length).map (fun k => specCall tracks audioLen (i + k)) := by
  intro ts
  induction ts with
  | nil => intro i _ _; simp [splitLoop]
  | cons t ts2 ih =>
    intro i hdrop hall
    have hti : tracks[i]? = some t := by
      have h0 := List.getElem?_drop tracks i 0
      rw [hdrop] at h0
      simpa using h0.symm
    obtain ⟨hs, hn⟩ := hall t (List.mem_cons_self t ts2)
    obtain ⟨stv, hstv⟩ := Option.isSome_iff_exists.mp hs
    obtain ⟨numv, hnumv⟩ := Option.isSome_iff_exists.mp hn
    have hdrop2 : tracks.drop (i + 1) = ts2 := by
      have hd := List.drop_drop 1 i tracks
      rw [hdrop] at hd
      exact hd.symm
    have hnext : ∀ t2, tracks[i + 1]? = some t2 → t2.start.isSome = true := by
      intro t2 ht2
      have h0 := List.getElem?_drop tracks (i + 1) 0
      rw [hdrop2] at h0
      rw [Nat.add_zero] at h0
      rw [ht2] at h0
      exact (hall t2 (List.mem_cons_of_mem t (List.getElem?_mem h0))).1
    have hper := perTrack_ok exportErr tracks audioLen i t stv numv hti hstv hnumv hnext
    simp only [splitLoop, hper, Option.toList_some, List.length_cons,
      List.range_succ_eq_map, List.map_cons, List.map_map, List.singleton_append]
    refine congrArg₂ _ (by simp) ?_
    rw [ih (i + 1) hdrop2 (fun t2 h2 => hall t2 (List.mem_cons_of_mem t h2))]
    refine List.map_congr_left ?_
    intro k _
    simp only [Function.comp]
    congr 1
    omega

/-- C8: over a parsed track list where every record has a start offset
and a track number, the splitter makes exactly one export call per track:
the call for track `i` slices from `tracks[i].start` to `tracks[i+1].start`
(to the buffer's end for the last track) and targets the file
`{NN} - {sanitized title}.flac`, with `Track NN` synthesized for a
missing title (the content of `specCall`). -/
theorem c8_slice_and_names (exportErr : SplitCall → Option PyStr)
    (tracks : List CueRec) (audioLen : Int)
    (hall : ∀ t ∈ tracks, t.start.isSome = true ∧ t.number.isSome = true) :
    (splitLoop exportErr tracks audioLen tracks.length 0 tracks).calls
      = (List.range tracks.length).map (fun k => specCall tracks audioLen k) := by
  have h := splitLoop_calls_spec exportErr tracks audioLen tracks.length tracks 0 rfl hall
  rw [h]
  exact List.map_congr_left (fun k _ => by rw [Nat.zero_add])

/-- C8 witness: two tracks (`01` titled `My: Song? #1`, `02` untitled)
over a 540000 ms buffer — the calls are `[0, 182493)` into
`01 - My Song 1.flac` and `[182493, 540000)` into `02 - Track 02.flac`. -/
theorem c8_slice_and_names_witness :
    (splitLoop (fun _ => none)
        [⟨some 1, some "My: Song? #1".data, none, some 0⟩,
         ⟨some 2, none, none, some 182493⟩]
        540000 2 0
        [⟨some 1, some "My: Song? #1".data, none, some 0⟩,
         ⟨some 2, none, none, some 182493⟩]).calls
      = [⟨0, 182493, "01 - My Song 1.flac".data⟩,
         ⟨182493, 540000, "02 - Track 02.flac".data⟩] := by
  have h := c8_slice_and_names (fun _ => none)
    [⟨some 1, some "My: Song? #1".data, none, some 0⟩,
     ⟨some 2, none, none, some 182493⟩]
    540000 (by decide)
  exact h.trans (by decide)

/-! ### Claim C10: INDEX 01 before the first TRACK -/

/-- A `TITLE` or `PERFORMER` line seen while the current record has no
track number is ignored (the guard `if number in current_track` fails). -/
theorem preTrack_title_ignored (st : List CueRec × CueRec) (raw : PyStr)
    (hnum : st.2.number = none)
    (h : pyStartswith "TITLE".data (pyStrip raw) = true ∨
      pyStartswith "PERFORMER".data (pyStrip raw) = true) :
    parseCueLine st raw = Except.ok st := by
  rcases h with h | h
  · obtain ⟨r, hr⟩ := pyStartswith_exists _ _ h
    have h1 : pyStartswith ['T','R','A','C','K'] ('T' :: 'I' :: 'T' :: 'L' :: 'E' ::r) = false := rfl
    have h4 : pyStartswith ['T','I','T','L','E'] ('T' :: 'I' :: 'T' :: 'L' :: 'E' ::r) = true :=
      pyStartswith_append ['T','I','T','L','E'] r
    simp [parseCueLine, hr, h1, h4, hnum]
  · obtain ⟨r, hr⟩ := pyStartswith_exists _ _ h
    have h1 : pyStartswith ['T','R','A','C','K']
        ('P' :: 'E' :: 'R' :: 'F' :: 'O' :: 'R' :: 'M' :: 'E' :: 'R' ::r) = false := rfl
    have h2 : pyStartswith ['T','I','T','L','E']
        ('P' :: 'E' :: 'R' :: 'F' :: 'O' :: 'R' :: 'M' :: 'E' :: 'R' ::r) = false := rfl
    have h4 : pyStartswith ['P','E','R','F','O','R','M','E','R']
        ('P' :: 'E' :: 'R' :: 'F' :: 'O' :: 'R' :: 'M' :: 'E' :: 'R' ::r) = true :=
      pyStartswith_append ['P','E','R','F','O','R','M','E','R'] r
    simp [parseCueLine, hr, h1, h2, h4, hnum]

/-- The first track record failing at `track['number']`: it has a start
offset (so the slice is computed) but no number, so the `KeyError` is
caught before any export call. -/
theorem perTrack_unknown (exportErr : SplitCall → Option PyStr) (tracks : List CueRec)
    (audioLen : Int) (t0 : CueRec) (v : Int)
    (hstart : t0.start = some v) (hnum : t0.number = none)
    (hnext : ∀ t2, tracks[0 + 1]? = some t2 → t2.start.isSome = true) :
    perTrack exportErr tracks audioLen 0 t0 = (none, some (keyErrMsg "number")) := by
  by_cases hlt : 0 + 1 < tracks.length
  · obtain ⟨s2, hs2⟩ := Option.isSome_iff_exists.mp
      (hnext tracks[0 + 1] (List.getElem?_eq_getElem hlt))
    have hgetD2 : tracks.getD (0 + 1) CueRec.mk0 = tracks[0 + 1] := by
      rw [List.getD_eq_getElem?_getD, List.getElem?_eq_getElem hlt]
      rfl
    simp [perTrack, hstart, hnum, hlt, hgetD2, hs2]
  · simp [perTrack, hstart, hnum, hlt]

/-- Reduction of `run` when both files exist, the parse succeeds, and the
audio decodes. -/
theorem cueRun_ok (lines : List PyStr) (env : CueEnv) (tracks : List CueRec)
    (audioLen : Int)
    (hparse : parse_cue lines = Except.ok tracks)
    (haudio : env.audio = Except.ok audioLen) :
    cueRun true true lines env
      = splitLoop env.exportErr tracks audioLen tracks.length 0 tracks := by
  have hred : cueRun true true lines env =
      (match parse_cue lines with
       | Except.error e => (⟨[], ["General error: ".data ++ e], []⟩ : SplitOut)
       | Except.ok tracks =>
         match env.audio with
         | Except.error e => ⟨[], ["General error: ".data ++ e], []⟩
         | Except.ok audioLen =>
           splitLoop env.exportErr tracks audioLen tracks.length 0 tracks) := rfl
  rw [hred, hparse, haudio]

/-- C10: (1) `TITLE`/`PERFORMER` lines before the first `TRACK` are
ignored; (2) an `INDEX 01` line before the first `TRACK` is not guarded:
from the empty state it produces a record with a start offset and no
number; (3) when the parse yields such a leading record, the splitter
fails on it, records the failure under the identifier `unknown`, and
still processes every remaining track (one progress emission per track,
one export call per remaining track). -/
theorem c10_index_before_track :
    (∀ (st : List CueRec × CueRec) (raw : PyStr),
      st.2.number = none →
      (pyStartswith "TITLE".data (pyStrip raw) = true ∨
        pyStartswith "PERFORMER".data (pyStrip raw) = true) →
      parseCueLine st raw = Except.ok st) ∧
    (∀ (raw restRaw mS sS fS : PyStr) (m s f : Int),
      pyStrip raw = "INDEX 01".data ++ restRaw →
      pySplitChar ':' (pyStrip restRaw) = [mS, sS, fS] →
      pyInt mS = some m → pyInt sS = some s → pyInt fS = some f →
      parseCueLine ([], CueRec.mk0) raw
        = Except.ok ([],
            { CueRec.mk0 with start := some ((m * 60 + s) * 1000 + Int.fdiv (f * 1000) 75) })) ∧
    (∀ (lines : List PyStr) (env : CueEnv) (t0 : CueRec) (rest : List CueRec)
        (v audioLen : Int),
      parse_cue lines = Except.ok (t0 :: rest) →
      env.audio = Except.ok audioLen →
      t0.number = none → t0.start = some v →
      (∀ t ∈ rest, t.start.isSome = true ∧ t.number.isSome = true) →
      (cueRun true true lines env).failed.head?
          = some ("Track unknown: ".data ++ keyErrMsg "number") ∧
      (cueRun true true lines env).progress.length = (t0 :: rest).length ∧
      (cueRun true true lines env).calls.length = rest.length) := by
  refine ⟨preTrack_title_ignored, ?_, ?_⟩
  · intro raw restRaw mS sS fS m s f hstrip hsplit hm hs hf
    exact indexLine_sets_start ([], CueRec.mk0) raw restRaw mS sS fS m s f
      hstrip hsplit hm hs hf
  · intro lines env t0 rest v audioLen hparse haudio hnum hstart hall
    rw [cueRun_ok lines env (t0 :: rest) audioLen hparse haudio]
    have hnext : ∀ t2, (t0 :: rest)[0 + 1]? = some t2 → t2.start.isSome = true := by
      intro t2 ht2
      have h0 : rest[0]? = some t2 := by simpa using ht2
      exact (hall t2 (List.getElem?_mem h0)).1
    have hper := perTrack_unknown env.exportErr (t0 :: rest) audioLen t0 v hstart hnum hnext
    have hcalls := splitLoop_calls_spec env.exportErr (t0 :: rest) audioLen
      (t0 :: rest).length rest 1 rfl hall
    refine ⟨?_, splitLoop_progress_length env.exportErr (t0 :: rest) audioLen
      (t0 :: rest).length (t0 :: rest) 0, ?_⟩
    · simp only [splitLoop, hper, List.head?]
      simp [trackIdent, hnum]
    · simp only [splitLoop, hper, Option.toList_none, List.nil_append]
      rw [hcalls]
      simp

/-- C10 witness: a cue sheet whose first `INDEX 01` precedes any `TRACK`;
the run fails on the leading record under `unknown` and still exports the
one remaining track. -/
theorem c10_index_before_track_witness :
    (cueRun true true
        (["INDEX 01 00:01:00", "TITLE \"ig\"", "TRACK 01 AUDIO", "INDEX 01 00:02:00"].map
          String.data)
        ⟨Except.ok 10000, fun _ => none⟩).failed.head?
      = some ("Track unknown: ".data ++ keyErrMsg "number") ∧
    (cueRun true true
        (["INDEX 01 00:01:00", "TITLE \"ig\"", "TRACK 01 AUDIO", "INDEX 01 00:02:00"].map
          String.data)
        ⟨Except.ok 10000, fun _ => none⟩).calls.length = 1 := by
  have h := c10_index_before_track.2.2
    (["INDEX 01 00:01:00", "TITLE \"ig\"", "TRACK 01 AUDIO", "INDEX 01 00:02:00"].map
      String.data)
    ⟨Except.ok 10000, fun _ => none⟩
    ⟨none, none, none, some 1000⟩ [⟨some 1, none, none, some 2000⟩] 1000 10000
    (by decide) rfl rfl rfl (by decide)
  exact ⟨h.1, h.2.2⟩
